import Mathlib

/-! Supervisor and shutdown coordinator of `main.go`.

A shallow embedding of the concurrent part of `main`:

* the service table built at startup (lines 36-48),
* one supervisor goroutine per service (lines 55-75),
* the coordinator loop `for { select { ... } }` (lines 102-115),
* the unbuffered channels `shutdown`, `exit` and `release` (lines 50-52).

Goroutines are modelled by program counters, the channels by rendezvous
steps (an unbuffered Go channel hands each sent value to exactly one
receiver), and the interleaving by a list of labels, one per atomic step.
The observable actions of a run are collected in a trace, most recent first.

What is outside the sources is a parameter or is kept out:

* `process.Start` and `cmd.Process.Kill` are calls into code that is not
  among the sources; whether `Start` returns an error and what `Kill` does are
  given per service by the configuration of a run;
* `logger.Fatalf` is modelled from the spec as ending the process with
  status 1;
* the OS may deliver an interrupt, and the kokoro server may send on
  `shutdown`, at any time: the two receiving cases of the `select` are always
  enabled while the coordinator is in it;
* the three statements of the exit case (the receive from `exit`,
  `logger.Info`, `os.Exit(1)`) are steps of their own, so that supervisors run
  in between;
* the gateway and kokoro servers are not modelled beyond that.
-/

namespace UltimateHeart

/-! ## Service table -/

/-- The fields of `process.Service` that `main` fills in. -/
structure Service where
  Name : String
  Binary : String
  Dir : String
  Args : List String
  Port : Int
  Endpoint : String
  FullPath : String
deriving DecidableEq

/-- Digits of `n` in base ten, least significant first; `fuel` bounds the
number of digits produced. -/
def digitsRev : Nat → Nat → List Char
  | 0, _ => []
  | fuel + 1, n =>
    if n < 10 then [Char.ofNat (48 + n)]
    else Char.ofNat (48 + n % 10) :: digitsRev fuel (n / 10)

/-- The verb `%d` of `fmt.Sprintf` applied to a natural number. -/
def natDecimal (n : Nat) : List Char :=
  (digitsRev (n + 1) n).reverse

/-- The verb `%d` of `fmt.Sprintf` applied to an integer: a minus sign for a
negative value, then the decimal digits of the magnitude. -/
def sprintfD (p : Int) : List Char :=
  if p < 0 then '-' :: natDecimal p.natAbs else natDecimal p.natAbs

/-- The value of `nyaaPort` after `flag.Parse()`: the flag's value when
`--nyaa-port` was given, the default of line 27 otherwise. -/
def nyaaPortFlag (given : Option Int) : Int :=
  given.getD 9995

/-- The `"nyaa"` entry of the `services` map (lines 37-47). -/
def nyaaService (nyaaPort : Int) : Service :=
  { Name := "kabedon-nyaa"
    Binary := "kabedon-nyaa.exe"
    Dir := "./kabedon-nyaa"
    Args := [String.mk ("--port=".data ++ sprintfD nyaaPort)]
    Port := nyaaPort
    Endpoint := String.mk ("http://localhost:".data ++ sprintfD nyaaPort)
    FullPath := "./kabedon-nyaa/kabedon-nyaa.exe" }

/-- The `services` map of line 36, as the list of its values. -/
def services (nyaaPort : Int) : List Service :=
  [nyaaService nyaaPort]

/-! ## Observable actions -/

/-- The two cases of the coordinator's `select` that send on `release`. -/
inductive Trigger
  | interrupt
  | shutdown
deriving DecidableEq

/-- The log calls of the supervisor goroutine and of the coordinator loop,
each with the arguments passed to it. -/
inductive LogMsg
  /-- Line 59, `logger.Errorf("unable to start %s: %s", service.Name, err)` -/
  | unableToStart (name : String)
  /-- Line 60, `logger.Errorf` of the whole descriptor with the verb `%+v` -/
  | descriptor (svc : Service)
  /-- Line 62, `logger.Infof("running %s on port=%d", service.FullPath, service.Port)` -/
  | running (fullPath : String) (port : Int)
  /-- Line 68, `logger.Fatalf("unable to kill %s: %s", service.Binary, err)` -/
  | unableToKill (binary : String)
  /-- Line 70, `logger.Infof("killed %s", service.Binary)` -/
  | killed (binary : String)
  /-- Line 71, `logger.Infof("%s exited", service.Binary)` -/
  | exited (binary : String)
  /-- Lines 105 and 108, `logger.Info("interrupt signal received")` and
  `logger.Info("shutdown signal received")` -/
  | received (t : Trigger)
  /-- Line 111, `logger.Info("exit signal received. Program exited.")` -/
  | exitReceived
deriving DecidableEq

/-- One observable action of a run. -/
inductive Act
  /-- Supervisor `i` calls `process.Start(service.Binary, service.Dir, service.Args)` -/
  | startCall (i : Nat) (binary dir : String) (args : List String)
  | log (m : LogMsg)
  /-- The value sent by the coordinator on `release` is received by supervisor `i` -/
  | release (i : Nat)
  /-- Supervisor `i` calls `cmd.Process.Kill()` -/
  | kill (i : Nat)
  /-- The value sent by supervisor `i` on `exit` is received by the coordinator -/
  | exitConfirm (i : Nat)
  /-- The goroutine of supervisor `i` panics -/
  | panic (i : Nat)
  /-- The process ends with the given status -/
  | osExit (code : Nat)
deriving DecidableEq

/-! ## Environment -/

/-- What `cmd.Process.Kill()` does: returns `nil`, returns an error, or
dereferences a nil handle. -/
inductive KillResult
  | ok
  | err
  | nilPanic
deriving DecidableEq

/-- The configured services and, for service `i`, whether `process.Start`
returns an error and what `Kill` does on the handle it returned. -/
structure Config where
  services : List Service
  startErr : Nat → Bool
  killRes : Nat → KillResult

/-- Modelled from the spec: `logger.Fatalf` (package `logger` is not among the
sources) logs and aborts the whole process; the spec gives status 1 for this
fatal path. -/
def fatalStatus : Nat := 1

/-- The exit status of a Go program that ends by an unrecovered panic. -/
def panicStatus : Nat := 2

/-! ## Goroutine states -/

/-- Where a supervisor goroutine stands (lines 56-74). -/
inductive SupPc
  /-- Before `process.Start`, line 57 -/
  | start
  /-- Blocked in `<-release`, line 65 -/
  | waiting
  /-- Past `<-release`, before `cmd.Process.Kill()`, line 67 -/
  | released
  /-- Blocked in `exit <- true`, line 73 -/
  | sending
  /-- Past `exit <- true`: the goroutine has returned -/
  | done
  /-- Inside `logger.Fatalf` or a panic: the process is gone -/
  | fatal
deriving DecidableEq

/-- Where the coordinator loop stands (lines 102-115). -/
inductive CoordPc
  /-- Blocked in `select`, line 103 -/
  | select
  /-- Blocked in `release <- true`, line 106 or line 109 -/
  | sendRelease (cause : Trigger)
  /-- Past the receive of `case <-exit`, before `logger.Info`, line 111 -/
  | gotExit
  /-- Past `logger.Info`, at `os.Exit(1)`, line 112 -/
  | loggedExit
deriving DecidableEq

/-- The state of a run. The trace holds the most recent action first. -/
structure State where
  sups : List SupPc
  coord : CoordPc
  trace : List Act
  exited : Option Nat
deriving DecidableEq

/-- The state when the coordinator loop is entered: every `go func(service)`
of the loop at line 55 has been spawned and none has run yet. -/
def init (cfg : Config) : State :=
  { sups := cfg.services.map (fun _ => SupPc.start)
    coord := CoordPc.select
    trace := []
    exited := none }

/-! ## Steps -/

/-- The atomic steps of a run. -/
inductive Label
  /-- Supervisor `i` runs up to its next blocking operation -/
  | sup (i : Nat)
  /-- The `select` of the coordinator takes `case <-interrupt` -/
  | interrupt
  /-- The `select` of the coordinator takes `case <-shutdown` -/
  | shutdown
  /-- Rendezvous on `release` between the coordinator and supervisor `i` -/
  | release (i : Nat)
  /-- Rendezvous on `exit` between supervisor `i` and the coordinator: the
  `select` takes `case <-exit`, line 110 -/
  | exit (i : Nat)
  /-- The coordinator runs the next statement of its exit case, line 111 or
  line 112 -/
  | coord
deriving DecidableEq

/-- Lines 57-62: call `process.Start`, log the error if there is one, log
`running`; there is no `return` in the `if err != nil` block. -/
def startActs (cfg : Config) (i : Nat) (svc : Service) : List Act :=
  Act.log (LogMsg.running svc.FullPath svc.Port) ::
    ((if cfg.startErr i then
        [Act.log (LogMsg.descriptor svc), Act.log (LogMsg.unableToStart svc.Name)]
      else []) ++ [Act.startCall i svc.Binary svc.Dir svc.Args])

/-- Lines 67-71 for supervisor `i`, from the state in which it has received
from `release`. -/
def killStep (cfg : Config) (i : Nat) (svc : Service) (s : State) : State :=
  match cfg.killRes i with
  | KillResult.ok =>
    { s with
      sups := s.sups.set i SupPc.sending
      trace := Act.log (LogMsg.exited svc.Binary) :: Act.log (LogMsg.killed svc.Binary) ::
        Act.kill i :: s.trace }
  | KillResult.err =>
    { s with
      sups := s.sups.set i SupPc.fatal
      trace := Act.osExit fatalStatus :: Act.log (LogMsg.unableToKill svc.Binary) ::
        Act.kill i :: s.trace
      exited := some fatalStatus }
  | KillResult.nilPanic =>
    { s with
      sups := s.sups.set i SupPc.fatal
      trace := Act.osExit panicStatus :: Act.panic i :: Act.kill i :: s.trace
      exited := some panicStatus }

/-- Lines 104-109: the coordinator, idle in `select`, receives the trigger
`t`, logs it and goes on to `release <- true`. -/
def handleTrigger (t : Trigger) (s : State) : Option State :=
  match s.coord with
  | CoordPc.select =>
    some { s with
      coord := CoordPc.sendRelease t
      trace := Act.log (LogMsg.received t) :: s.trace }
  | _ => none

/-- Lines 111-112: the coordinator, past the receive from `exit`, logs, and
then calls `os.Exit(1)`; each statement is a step of its own, so that the
supervisors can run in between. -/
def exitCase (s : State) : Option State :=
  match s.coord with
  | CoordPc.gotExit =>
    some { s with
      coord := CoordPc.loggedExit
      trace := Act.log LogMsg.exitReceived :: s.trace }
  | CoordPc.loggedExit =>
    some { s with
      trace := Act.osExit 1 :: s.trace
      exited := some 1 }
  | _ => none

/-- One atomic step; `none` when the step is not enabled. Nothing runs once
the process has exited. -/
def step (cfg : Config) (l : Label) (s : State) : Option State :=
  if s.exited.isSome then none else
  match l with
  | Label.sup i =>
    match s.sups[i]?, cfg.services[i]? with
    | some SupPc.start, some svc =>
      some { s with
        sups := s.sups.set i SupPc.waiting
        trace := startActs cfg i svc ++ s.trace }
    | some SupPc.released, some svc => some (killStep cfg i svc s)
    | _, _ => none
  | Label.interrupt => handleTrigger Trigger.interrupt s
  | Label.shutdown => handleTrigger Trigger.shutdown s
  | Label.release i =>
    match s.coord, s.sups[i]? with
    | CoordPc.sendRelease _, some SupPc.waiting =>
      some { s with
        coord := CoordPc.select
        sups := s.sups.set i SupPc.released
        trace := Act.release i :: s.trace }
    | _, _ => none
  | Label.exit i =>
    match s.coord, s.sups[i]? with
    | CoordPc.select, some SupPc.sending =>
      some { s with
        coord := CoordPc.gotExit
        sups := s.sups.set i SupPc.done
        trace := Act.exitConfirm i :: s.trace }
    | _, _ => none
  | Label.coord => exitCase s

/-- Run the steps of `ls` in order; `none` as soon as one is not enabled. -/
def exec (cfg : Config) : List Label → State → Option State
  | [], s => some s
  | l :: ls, s => (step cfg l s).bind (exec cfg ls)

/-- The states some run of the program passes through. -/
def Reachable (cfg : Config) (s : State) : Prop :=
  ∃ ls, exec cfg ls (init cfg) = some s

/-! ## Sample configurations -/

/-- A service named `n` with no arguments. -/
def svc (n : String) : Service :=
  { Name := n, Binary := n, Dir := ".", Args := [], Port := 0, Endpoint := "", FullPath := n }

/-- One service, which starts and is killed without error. -/
def cfg1 : Config :=
  { services := [svc "a"], startErr := fun _ => false, killRes := fun _ => KillResult.ok }

/-- Two services, which start and are killed without error. -/
def cfg2 : Config :=
  { services := [svc "a", svc "b"], startErr := fun _ => false
    killRes := fun _ => KillResult.ok }

/-! ## Quantities read off a state -/

/-- Whether an action is the handling of a trigger by the coordinator. -/
def isTrigger : Act → Bool
  | Act.log (LogMsg.received _) => true
  | _ => false

/-- Whether an action is a completed send on `release`. -/
def isRelease : Act → Bool
  | Act.release _ => true
  | _ => false

/-- The number of triggers the coordinator has handled. -/
def nTriggers (tr : List Act) : Nat := tr.countP isTrigger

/-- The number of values sent on `release` and received. -/
def nReleases (tr : List Act) : Nat := tr.countP isRelease

/-- The number of sends on `release` the coordinator is blocked in. -/
def pending : CoordPc → Nat
  | CoordPc.sendRelease _ => 1
  | _ => 0

/-- Whether a supervisor has left its wait on `release`. -/
def pastWait : SupPc → Bool
  | SupPc.start => false
  | SupPc.waiting => false
  | _ => true

/-- Whether an action is a call of `Kill`. -/
def isKill : Act → Bool
  | Act.kill _ => true
  | _ => false

/-- The number of calls of `Kill`. -/
def nKills (tr : List Act) : Nat := tr.countP isKill

/-- Whether a supervisor has called `Kill`. -/
def hasKilled : SupPc → Bool
  | SupPc.sending => true
  | SupPc.done => true
  | SupPc.fatal => true
  | _ => false

/-- Whether an action is the receive of an Exit Confirmation. -/
def isExitConfirm : Act → Bool
  | Act.exitConfirm _ => true
  | _ => false

/-- Whether the coordinator is in its exit case, past the receive from
`exit`. -/
def inExitCase : CoordPc → Bool
  | CoordPc.gotExit => true
  | CoordPc.loggedExit => true
  | _ => false

/-- How often supervisor `i` has received from `release`, called `Kill` and
had its value on `exit` received. -/
def counts (tr : List Act) (i : Nat) : Nat × Nat × Nat :=
  (tr.count (Act.release i), tr.count (Act.kill i), tr.count (Act.exitConfirm i))

/-- The value of `counts` that goes with each program counter. -/
def expected : Option SupPc → Nat × Nat × Nat
  | none => (0, 0, 0)
  | some SupPc.start => (0, 0, 0)
  | some SupPc.waiting => (0, 0, 0)
  | some SupPc.released => (1, 0, 0)
  | some SupPc.sending => (1, 1, 0)
  | some SupPc.fatal => (1, 1, 0)
  | some SupPc.done => (1, 1, 1)

/-- Every `Kill` in the trace (most recent first) has the receive from
`release` of the same supervisor before it, and every such receive has a
handled trigger before it. -/
def Ordered : List Act → Prop
  | [] => True
  | a :: rest =>
    Ordered rest ∧ (∀ i, a = Act.kill i → Act.release i ∈ rest) ∧
      (∀ i, a = Act.release i → ∃ t, Act.log (LogMsg.received t) ∈ rest)

/-- The invariant of the reachable states. -/
structure Inv (cfg : Config) (s : State) : Prop where
  len : s.sups.length = cfg.services.length
  sends : nTriggers s.trace = nReleases s.trace + pending s.coord
  recvs : s.sups.countP pastWait = nReleases s.trace
  sup : ∀ i, counts s.trace i = expected s.sups[i]?
  killOk : ∀ i, s.sups[i]? = some SupPc.sending ∨ s.sups[i]? = some SupPc.done →
    cfg.killRes i = KillResult.ok
  order : Ordered s.trace
  status : ∀ c, s.exited = some c → c = 1 ∨ c = 2

/-- A second invariant of the reachable states: the supervisors that have
called `Kill` are as many as the calls of `Kill`, and every supervisor past
its start has called `process.Start` with the fields of its own service and
logged it as running. -/
structure InvStarted (cfg : Config) (s : State) : Prop where
  kills : s.sups.countP hasKilled = nKills s.trace
  started : ∀ j svc pc, cfg.services[j]? = some svc → s.sups[j]? = some pc →
    pc ≠ SupPc.start →
    Act.startCall j svc.Binary svc.Dir svc.Args ∈ s.trace ∧
      Act.log (LogMsg.running svc.FullPath svc.Port) ∈ s.trace

/-! ## Forgetting which trigger was handled -/

/-- Replace the logged trigger by `interrupt`. -/
def forgetCauseAct : Act → Act
  | Act.log (LogMsg.received _) => Act.log (LogMsg.received Trigger.interrupt)
  | a => a

/-- Replace the trigger the coordinator is sending for by `interrupt`. -/
def forgetCausePc : CoordPc → CoordPc
  | CoordPc.sendRelease _ => CoordPc.sendRelease Trigger.interrupt
  | c => c

/-- The state with every record of which trigger was handled (the logged
message, the line of the pending send) replaced by `interrupt`; everything
else is kept. -/
def forgetCause (s : State) : State :=
  { s with coord := forgetCausePc s.coord, trace := s.trace.map forgetCauseAct }

/-! ## Reading a decimal rendering back -/

/-- The number written by a sequence of decimal digits. -/
def parseNat (cs : List Char) : Nat :=
  cs.foldl (fun acc c => 10 * acc + (c.toNat - 48)) 0

/-- The integer written by an optional minus sign and decimal digits. -/
def parseInt : List Char → Int
  | '-' :: cs => - (parseNat cs : Int)
  | cs => (parseNat cs : Int)

/-! ## More sample configurations and states -/

/-- One service, whose start fails and whose handle is nil. -/
def cfgFail : Config :=
  { services := [svc "a"], startErr := fun _ => true, killRes := fun _ => KillResult.nilPanic }

/-- One service, which starts and whose `Kill` returns an error. -/
def cfgKillErr : Config :=
  { services := [svc "a"], startErr := fun _ => false, killRes := fun _ => KillResult.err }

/-- The scenario of the spec: services A, B, C, a start failure for B only. -/
def cfg3 : Config :=
  { services := [svc "A", svc "B", svc "C"]
    startErr := fun i => i == 1
    killRes := fun i => if i == 1 then KillResult.nilPanic else KillResult.ok }

/-- The state of `cfg1` after the supervisor started, the coordinator handled
an interrupt, the supervisor received from `release` and killed its child. -/
def stKilled : State :=
  { sups := [SupPc.sending]
    coord := CoordPc.select
    trace := [Act.log (LogMsg.exited "a"), Act.log (LogMsg.killed "a"), Act.kill 0,
      Act.release 0, Act.log (LogMsg.received Trigger.interrupt),
      Act.log (LogMsg.running "a" 0), Act.startCall 0 "a" "." []]
    exited := none }

/-- The labels of the run of `cfg1` that ends in `stKilled`. -/
def runKilled : List Label :=
  [Label.sup 0, Label.interrupt, Label.release 0, Label.sup 0]

/-- The state of `cfgKillErr` in which the supervisor has received from
`release` and is about to call `Kill`. -/
def stReleasedErr : State :=
  { sups := [SupPc.released]
    coord := CoordPc.select
    trace := [Act.release 0, Act.log (LogMsg.received Trigger.interrupt),
      Act.log (LogMsg.running "a" 0), Act.startCall 0 "a" "." []]
    exited := none }

/-- The state of `cfg1` in which the one supervisor has started and waits for
`release`, and the coordinator is idle in its `select`. -/
def stWaiting : State :=
  { sups := [SupPc.waiting]
    coord := CoordPc.select
    trace := [Act.log (LogMsg.running "a" 0), Act.startCall 0 "a" "." []]
    exited := none }

/-- The state of `cfg1` after a second interrupt was handled during the
drain: the coordinator is blocked in its second send on `release`, the
supervisor in its send on `exit`. -/
def stStuck : State :=
  { sups := [SupPc.sending]
    coord := CoordPc.sendRelease Trigger.interrupt
    trace := [Act.log (LogMsg.exited "a"), Act.log (LogMsg.killed "a"), Act.kill 0,
      Act.log (LogMsg.received Trigger.interrupt), Act.release 0,
      Act.log (LogMsg.received Trigger.interrupt),
      Act.log (LogMsg.running "a" 0), Act.startCall 0 "a" "." []]
    exited := none }

/-- What of a state does not depend on which trigger was handled: the
supervisors, the exit status and the number of values received from
`release`. -/
def observe (s : State) : List SupPc × Option Nat × Nat :=
  (s.sups, s.exited, nReleases s.trace)

/-- The state of `cfg3` after two triggers: A has been released and killed and
is blocked in its send on `exit`, B (whose start failed) has been released
and is about to call `Kill`, C still waits; the coordinator is in its
`select`. -/
def stWindow : State :=
  { sups := [SupPc.sending, SupPc.released, SupPc.waiting]
    coord := CoordPc.select
    trace := [Act.release 1, Act.log (LogMsg.received Trigger.interrupt),
      Act.log (LogMsg.exited "A"), Act.log (LogMsg.killed "A"), Act.kill 0,
      Act.release 0, Act.log (LogMsg.received Trigger.interrupt),
      Act.log (LogMsg.running "C" 0), Act.startCall 2 "C" "." [],
      Act.log (LogMsg.running "B" 0), Act.log (LogMsg.descriptor (svc "B")),
      Act.log (LogMsg.unableToStart "B"), Act.startCall 1 "B" "." [],
      Act.log (LogMsg.running "A" 0), Act.startCall 0 "A" "." []]
    exited := none }

/-! ## The invariant holds in every reachable state -/

theorem step_exited_none {cfg : Config} {l : Label} {s s' : State}
    (h : step cfg l s = some s') : s.exited = none := by
  unfold step at h
  cases hex : s.exited with
  | none => rfl
  | some c => simp [hex] at h

theorem step_of_exited {cfg : Config} {s : State} {c : Nat} (h : s.exited = some c)
    (l : Label) : step cfg l s = none := by
  unfold step
  simp [h]

theorem countP_set_of_true (p : SupPc → Bool) :
    ∀ (l : List SupPc) (i : Nat) (a b : SupPc), l[i]? = some a → p a = false → p b = true →
      (l.set i b).countP p = l.countP p + 1
  | [], i, a, b, h, _, _ => by simp at h
  | x :: l, 0, a, b, h, ha, hb => by
    simp at h
    subst h
    simp [List.countP_cons, ha, hb]
  | x :: l, i + 1, a, b, h, ha, hb => by
    simp at h
    simp [List.countP_cons, countP_set_of_true p l i a b h ha hb]
    omega

theorem countP_set_of_same (p : SupPc → Bool) :
    ∀ (l : List SupPc) (i : Nat) (a b : SupPc), l[i]? = some a → p a = p b →
      (l.set i b).countP p = l.countP p
  | [], i, a, b, h, _ => by simp at h
  | x :: l, 0, a, b, h, hab => by
    simp at h
    subst h
    simp [List.countP_cons, hab]
  | x :: l, i + 1, a, b, h, hab => by
    simp at h
    simp [List.countP_cons, countP_set_of_same p l i a b h hab]


theorem step_cases {cfg : Config} {l : Label} {s s' : State}
    (h : step cfg l s = some s') :
    s.exited = none ∧
    ((∃ i svc, l = Label.sup i ∧ s.sups[i]? = some SupPc.start ∧
        cfg.services[i]? = some svc ∧
        s' = { s with sups := s.sups.set i SupPc.waiting
                      trace := startActs cfg i svc ++ s.trace }) ∨
     (∃ i svc, l = Label.sup i ∧ s.sups[i]? = some SupPc.released ∧
        cfg.services[i]? = some svc ∧ s' = killStep cfg i svc s) ∨
     (∃ t, (l = Label.interrupt ∧ t = Trigger.interrupt ∨
            l = Label.shutdown ∧ t = Trigger.shutdown) ∧ s.coord = CoordPc.select ∧
        s' = { s with coord := CoordPc.sendRelease t
                      trace := Act.log (LogMsg.received t) :: s.trace }) ∨
     (∃ i c, l = Label.release i ∧ s.coord = CoordPc.sendRelease c ∧
        s.sups[i]? = some SupPc.waiting ∧
        s' = { s with coord := CoordPc.select
                      sups := s.sups.set i SupPc.released
                      trace := Act.release i :: s.trace }) ∨
     (∃ i, l = Label.exit i ∧ s.coord = CoordPc.select ∧
        s.sups[i]? = some SupPc.sending ∧
        s' = { s with coord := CoordPc.gotExit
                      sups := s.sups.set i SupPc.done
                      trace := Act.exitConfirm i :: s.trace }) ∨
     (l = Label.coord ∧ s.coord = CoordPc.gotExit ∧
        s' = { s with coord := CoordPc.loggedExit
                      trace := Act.log LogMsg.exitReceived :: s.trace }) ∨
     (l = Label.coord ∧ s.coord = CoordPc.loggedExit ∧
        s' = { s with trace := Act.osExit 1 :: s.trace
                      exited := some 1 })) := by
  have hex := step_exited_none h
  refine ⟨hex, ?_⟩
  unfold step at h
  simp only [hex, Option.isSome_none, Bool.false_eq_true, if_false] at h
  cases l with
  | sup i =>
    simp only at h
    split at h
    · next svc h1 h2 =>
      left
      exact ⟨i, svc, rfl, h1, h2, by rw [hex]; exact (Option.some.inj h).symm⟩
    · next svc h1 h2 =>
      right; left
      exact ⟨i, svc, rfl, h1, h2, (Option.some.inj h).symm⟩
    · simp at h
  | interrupt =>
    right; right; left
    simp only [handleTrigger] at h
    split at h
    · next hc => exact ⟨Trigger.interrupt, Or.inl ⟨rfl, rfl⟩, hc, (Option.some.inj h).symm⟩
    · simp at h
  | shutdown =>
    right; right; left
    simp only [handleTrigger] at h
    split at h
    · next hc => exact ⟨Trigger.shutdown, Or.inr ⟨rfl, rfl⟩, hc, (Option.some.inj h).symm⟩
    · simp at h
  | release i =>
    right; right; right; left
    simp only at h
    split at h
    · next c hc hi => exact ⟨i, c, rfl, hc, hi, by rw [hex]; exact (Option.some.inj h).symm⟩
    · simp at h
  | exit i =>
    right; right; right; right; left
    simp only at h
    split at h
    · next hc hi => exact ⟨i, rfl, hc, hi, by rw [hex]; exact (Option.some.inj h).symm⟩
    · simp at h
  | coord =>
    right; right; right; right; right
    simp only [exitCase] at h
    split at h
    · next hc => exact Or.inl ⟨rfl, hc, (Option.some.inj h).symm⟩
    · next hc => exact Or.inr ⟨rfl, hc, (Option.some.inj h).symm⟩
    · simp at h

theorem startActs_counts (cfg : Config) (i j : Nat) (svc : Service) :
    counts (startActs cfg i svc) j = (0, 0, 0) := by
  unfold counts startActs
  cases cfg.startErr i <;> simp [List.count_cons]

theorem startActs_nTriggers (cfg : Config) (i : Nat) (svc : Service) :
    nTriggers (startActs cfg i svc) = 0 := by
  unfold nTriggers startActs
  cases cfg.startErr i <;> simp [List.countP_cons, isTrigger]

theorem startActs_nReleases (cfg : Config) (i : Nat) (svc : Service) :
    nReleases (startActs cfg i svc) = 0 := by
  unfold nReleases startActs
  cases cfg.startErr i <;> simp [List.countP_cons, isRelease]

theorem counts_append (a b : List Act) (j : Nat) :
    counts (a ++ b) j = ((counts a j).1 + (counts b j).1,
      (counts a j).2.1 + (counts b j).2.1, (counts a j).2.2 + (counts b j).2.2) := by
  simp [counts, List.count_append]

theorem ordered_append_plain (a b : List Act)
    (ha : ∀ x ∈ a, (∀ i, x ≠ Act.kill i) ∧ (∀ i, x ≠ Act.release i)) (hb : Ordered b) :
    Ordered (a ++ b) := by
  induction a with
  | nil => simpa using hb
  | cons x a ih =>
    have hx := ha x (List.mem_cons_self x a)
    refine ⟨ih (fun y hy => ha y (List.mem_cons_of_mem x hy)), ?_, ?_⟩
    · intro i hi; exact absurd hi (hx.1 i)
    · intro i hi; exact absurd hi (hx.2 i)

theorem startActs_plain (cfg : Config) (i : Nat) (svc : Service) :
    ∀ x ∈ startActs cfg i svc, (∀ j, x ≠ Act.kill j) ∧ (∀ j, x ≠ Act.release j) := by
  intro x hx
  unfold startActs at hx
  cases h : cfg.startErr i <;> simp only [h, if_true, Bool.false_eq_true, if_false,
    List.nil_append, List.cons_append, List.mem_cons, List.mem_singleton,
    List.not_mem_nil, or_false] at hx
  · rcases hx with hx | hx <;> subst hx <;> simp
  · rcases hx with hx | hx | hx | hx <;> subst hx <;> simp

theorem mem_of_counts_release {tr : List Act} {i : Nat} {b c : Nat}
    (h : counts tr i = (1, b, c)) : Act.release i ∈ tr := by
  have h1 : tr.count (Act.release i) = 1 := congrArg Prod.fst h
  exact List.count_pos_iff.mp (by omega)

theorem exists_trigger_of_pos {tr : List Act} (h : 0 < nTriggers tr) :
    ∃ t, Act.log (LogMsg.received t) ∈ tr := by
  unfold nTriggers at h
  obtain ⟨a, ha, hp⟩ := List.countP_pos_iff.mp h
  cases a with
  | log m =>
    cases m with
    | received t => exact ⟨t, ha⟩
    | _ => simp [isTrigger] at hp
  | _ => simp [isTrigger] at hp


theorem getElem?_set_of_some {l : List SupPc} {i : Nat} {a : SupPc} (b : SupPc)
    (h : l[i]? = some a) (j : Nat) :
    (l.set i b)[j]? = if j = i then some b else l[j]? := by
  have hi : i < l.length := by
    rcases Nat.lt_or_ge i l.length with h1 | h1
    · exact h1
    · rw [List.getElem?_eq_none h1] at h; cases h
  by_cases hj : j = i
  · subst hj; simp [hi]
  · have : i ≠ j := fun e => hj e.symm
    simp [List.getElem?_set, this, hj]

theorem inv_init (cfg : Config) : Inv cfg (init cfg) where
  len := by simp [init]
  sends := by simp [init, nTriggers, nReleases, pending]
  recvs := by
    simp only [init, nReleases, List.countP_nil]
    induction cfg.services with
    | nil => rfl
    | cons x l ih => simp [List.countP_cons, pastWait]
  sup := by
    intro i
    simp only [init, counts, List.count_nil, List.getElem?_map]
    cases cfg.services[i]? <;> rfl
  killOk := by
    intro i h
    simp only [init, List.getElem?_map] at h
    cases hs : cfg.services[i]? <;> simp [hs] at h
  order := trivial
  status := by intro c h; simp [init] at h


theorem nTriggers_append (a b : List Act) : nTriggers (a ++ b) = nTriggers a + nTriggers b := by
  simp [nTriggers]

theorem nReleases_append (a b : List Act) : nReleases (a ++ b) = nReleases a + nReleases b := by
  simp [nReleases]

theorem inv_step_start {cfg : Config} {s : State} (hI : Inv cfg s) {i : Nat} {svc : Service}
    (h1 : s.sups[i]? = some SupPc.start) (hex : s.exited = none) :
    Inv cfg { s with sups := s.sups.set i SupPc.waiting
                     trace := startActs cfg i svc ++ s.trace } where
  len := by simpa using hI.len
  sends := by
    simp only [nTriggers_append, nReleases_append, startActs_nTriggers, startActs_nReleases]
    simpa using hI.sends
  recvs := by
    simp only [nReleases_append, startActs_nReleases, Nat.zero_add]
    rw [countP_set_of_same pastWait s.sups i SupPc.start SupPc.waiting h1 rfl]
    exact hI.recvs
  sup := by
    intro j
    simp only [counts_append, startActs_counts, Nat.zero_add, getElem?_set_of_some _ h1]
    by_cases hj : j = i
    · subst hj
      have := hI.sup j
      rw [h1] at this
      simpa [expected] using this
    · simpa [hj] using hI.sup j
  killOk := by
    intro j hj
    simp only [getElem?_set_of_some _ h1] at hj
    by_cases hji : j = i
    · simp [hji] at hj
    · simp only [hji, if_false] at hj
      exact hI.killOk j hj
  order := ordered_append_plain _ _ (startActs_plain cfg i svc) hI.order
  status := by intro c hc; simp [hex] at hc

theorem inv_step_trigger {cfg : Config} {s : State} (hI : Inv cfg s) (t : Trigger)
    (hc : s.coord = CoordPc.select) (hex : s.exited = none) :
    Inv cfg { s with coord := CoordPc.sendRelease t
                     trace := Act.log (LogMsg.received t) :: s.trace } where
  len := hI.len
  sends := by
    have := hI.sends
    rw [hc] at this
    simp only [nTriggers, nReleases, pending] at this ⊢
    simp [List.countP_cons, isTrigger, isRelease, this]
  recvs := by
    have := hI.recvs
    simp only [nReleases] at this ⊢
    simp [List.countP_cons, isRelease, this]
  sup := by
    intro j
    have := hI.sup j
    simp only [counts] at this ⊢
    simpa [List.count_cons] using this
  killOk := hI.killOk
  order := ⟨hI.order, by simp, by simp⟩
  status := by intro c hc; simp [hex] at hc

theorem inv_step_release {cfg : Config} {s : State} (hI : Inv cfg s) {i : Nat} {c : Trigger}
    (hc : s.coord = CoordPc.sendRelease c) (h1 : s.sups[i]? = some SupPc.waiting)
    (hex : s.exited = none) :
    Inv cfg { s with coord := CoordPc.select
                     sups := s.sups.set i SupPc.released
                     trace := Act.release i :: s.trace } where
  len := by simpa using hI.len
  sends := by
    have := hI.sends
    rw [hc] at this
    simp only [nTriggers, nReleases, pending] at this ⊢
    simp [List.countP_cons, isTrigger, isRelease, this]
  recvs := by
    have := hI.recvs
    rw [countP_set_of_true pastWait s.sups i SupPc.waiting SupPc.released h1 rfl rfl]
    simp only [nReleases] at this ⊢
    simp [List.countP_cons, isRelease, this]
  sup := by
    intro j
    simp only [getElem?_set_of_some _ h1]
    by_cases hj : j = i
    · subst hj
      have := hI.sup j
      rw [h1] at this
      simp only [counts, expected, Prod.mk.injEq] at this ⊢
      simp [List.count_cons, this]
    · have := hI.sup j
      have hij : ¬ i = j := fun e => hj e.symm
      simp only [counts] at this ⊢
      simpa [List.count_cons, hj, hij] using this
  killOk := by
    intro j hj
    simp only [getElem?_set_of_some _ h1] at hj
    by_cases hji : j = i
    · simp [hji] at hj
    · simp only [hji, if_false] at hj
      exact hI.killOk j hj
  order := by
    refine ⟨hI.order, by simp, ?_⟩
    intro _ _
    apply exists_trigger_of_pos
    have := hI.sends
    rw [hc] at this
    simp only [pending] at this
    omega
  status := by intro c hc; simp [hex] at hc

theorem inv_step_exit {cfg : Config} {s : State} (hI : Inv cfg s) {i : Nat}
    (hc : s.coord = CoordPc.select) (h1 : s.sups[i]? = some SupPc.sending)
    (hex : s.exited = none) :
    Inv cfg { s with coord := CoordPc.gotExit
                     sups := s.sups.set i SupPc.done
                     trace := Act.exitConfirm i :: s.trace } where
  len := by simpa using hI.len
  sends := by
    have := hI.sends
    rw [hc] at this
    simp only [nTriggers, nReleases, pending] at this ⊢
    simp [List.countP_cons, isTrigger, isRelease, this]
  recvs := by
    have := hI.recvs
    rw [countP_set_of_same pastWait s.sups i SupPc.sending SupPc.done h1 rfl]
    simp only [nReleases] at this ⊢
    simp [List.countP_cons, isRelease, this]
  sup := by
    intro j
    simp only [getElem?_set_of_some _ h1]
    by_cases hj : j = i
    · subst hj
      have := hI.sup j
      rw [h1] at this
      simp only [counts, expected, Prod.mk.injEq] at this ⊢
      simp [List.count_cons, this]
    · have := hI.sup j
      have hij : ¬ i = j := fun e => hj e.symm
      simp only [counts] at this ⊢
      simpa [List.count_cons, hj, hij] using this
  killOk := by
    intro j hj
    simp only [getElem?_set_of_some _ h1] at hj
    by_cases hji : j = i
    · subst hji; exact hI.killOk j (Or.inl h1)
    · simp only [hji, if_false] at hj
      exact hI.killOk j hj
  order := ⟨hI.order, by simp, by simp⟩
  status := by intro c hc; simp [hex] at hc

theorem inv_step_plain {cfg : Config} {s : State} (hI : Inv cfg s) (a : Act)
    (c : CoordPc) (e : Option Nat) (ht : isTrigger a = false) (hr : isRelease a = false)
    (hn : ∀ j, a ≠ Act.release j ∧ a ≠ Act.kill j ∧ a ≠ Act.exitConfirm j)
    (hp : pending c = pending s.coord) (he : ∀ x, e = some x → x = 1 ∨ x = 2) :
    Inv cfg { s with coord := c, trace := a :: s.trace, exited := e } where
  len := hI.len
  sends := by
    have := hI.sends
    simp only [nTriggers, nReleases] at this ⊢
    simp [List.countP_cons, ht, hr, this, hp]
  recvs := by
    have := hI.recvs
    simp only [nReleases] at this ⊢
    simp [List.countP_cons, hr, this]
  sup := by
    intro j
    have := hI.sup j
    obtain ⟨h1, h2, h3⟩ := hn j
    simp only [counts] at this ⊢
    simpa [List.count_cons, h1.symm, h2.symm, h3.symm] using this
  killOk := hI.killOk
  order := ⟨hI.order, fun j hj => absurd hj (hn j).2.1, fun j hj => absurd hj (hn j).1⟩
  status := he

theorem inv_step_kill {cfg : Config} {s : State} (hI : Inv cfg s) {i : Nat} (svc : Service)
    (h1 : s.sups[i]? = some SupPc.released) (hex : s.exited = none) :
    Inv cfg (killStep cfg i svc s) := by
  have hrel : Act.release i ∈ s.trace := by
    have := hI.sup i
    rw [h1] at this
    exact mem_of_counts_release this
  have hsup : ∀ (pc : SupPc) (a b : Act), expected (some pc) = (1, 1, 0) →
      (∀ j, a ≠ Act.release j ∧ a ≠ Act.kill j ∧ a ≠ Act.exitConfirm j) →
      (∀ j, b ≠ Act.release j ∧ b ≠ Act.kill j ∧ b ≠ Act.exitConfirm j) →
      ∀ j, counts (a :: b :: Act.kill i :: s.trace) j = expected (s.sups.set i pc)[j]? := by
    intro pc a b hpc ha hb j
    simp only [getElem?_set_of_some _ h1]
    have := hI.sup j
    obtain ⟨ha1, ha2, ha3⟩ := ha j
    obtain ⟨hb1, hb2, hb3⟩ := hb j
    by_cases hj : j = i
    · subst hj
      rw [h1] at this
      simp only [counts, expected, Prod.mk.injEq] at this
      simp only [if_true, hpc, counts, Prod.mk.injEq]
      simp [List.count_cons, this, ha1.symm, ha2.symm, ha3.symm, hb1.symm, hb2.symm, hb3.symm]
    · have hij : ¬ i = j := fun e => hj e.symm
      simp only [counts] at this
      simp only [hj, if_false, counts]
      simpa [List.count_cons, hij, ha1.symm, ha2.symm, ha3.symm, hb1.symm, hb2.symm,
        hb3.symm] using this
  have hsends : ∀ (a b : Act), isTrigger a = false → isRelease a = false →
      isTrigger b = false → isRelease b = false →
      nTriggers (a :: b :: Act.kill i :: s.trace) =
        nReleases (a :: b :: Act.kill i :: s.trace) + pending s.coord ∧
      nReleases (a :: b :: Act.kill i :: s.trace) = nReleases s.trace := by
    intro a b h1 h2 h3 h4
    have := hI.sends
    simp only [nTriggers, nReleases] at this ⊢
    simp [List.countP_cons, this, h1, h2, h3, h4, show isTrigger (Act.kill i) = false from rfl,
      show isRelease (Act.kill i) = false from rfl]
  unfold killStep
  cases hk : cfg.killRes i with
  | ok =>
    simp only
    have hs := hsends (Act.log (LogMsg.exited svc.Binary)) (Act.log (LogMsg.killed svc.Binary))
      rfl rfl rfl rfl
    exact {
      len := by simpa using hI.len
      sends := hs.1
      recvs := by
        rw [countP_set_of_same pastWait s.sups i SupPc.released SupPc.sending h1 rfl]
        exact hI.recvs.trans hs.2.symm
      sup := hsup SupPc.sending _ _ rfl (by simp) (by simp)
      killOk := by
        intro j hj
        simp only [getElem?_set_of_some _ h1] at hj
        by_cases hji : j = i
        · subst hji; exact hk
        · simp only [hji, if_false] at hj
          exact hI.killOk j hj
      order := ⟨⟨⟨hI.order, by intro _ e; cases e; exact hrel, by simp⟩, by simp, by simp⟩,
        by simp, by simp⟩
      status := by intro c hc; simp [hex] at hc }
  | err =>
    simp only
    have hs := hsends (Act.osExit fatalStatus) (Act.log (LogMsg.unableToKill svc.Binary))
      rfl rfl rfl rfl
    exact {
      len := by simpa using hI.len
      sends := hs.1
      recvs := by
        rw [countP_set_of_same pastWait s.sups i SupPc.released SupPc.fatal h1 rfl]
        exact hI.recvs.trans hs.2.symm
      sup := hsup SupPc.fatal _ _ rfl (by simp) (by simp)
      killOk := by
        intro j hj
        simp only [getElem?_set_of_some _ h1] at hj
        by_cases hji : j = i
        · simp [hji] at hj
        · simp only [hji, if_false] at hj
          exact hI.killOk j hj
      order := ⟨⟨⟨hI.order, by intro _ e; cases e; exact hrel, by simp⟩, by simp, by simp⟩,
        by simp, by simp⟩
      status := by intro c hc; simp [fatalStatus] at hc; exact Or.inl hc.symm }
  | nilPanic =>
    simp only
    have hs := hsends (Act.osExit panicStatus) (Act.panic i) rfl rfl rfl rfl
    exact {
      len := by simpa using hI.len
      sends := hs.1
      recvs := by
        rw [countP_set_of_same pastWait s.sups i SupPc.released SupPc.fatal h1 rfl]
        exact hI.recvs.trans hs.2.symm
      sup := hsup SupPc.fatal _ _ rfl (by simp) (by simp)
      killOk := by
        intro j hj
        simp only [getElem?_set_of_some _ h1] at hj
        by_cases hji : j = i
        · simp [hji] at hj
        · simp only [hji, if_false] at hj
          exact hI.killOk j hj
      order := ⟨⟨⟨hI.order, by intro _ e; cases e; exact hrel, by simp⟩, by simp, by simp⟩,
        by simp, by simp⟩
      status := by intro c hc; simp [panicStatus] at hc; exact Or.inr hc.symm }

theorem inv_step {cfg : Config} {l : Label} {s s' : State} (hI : Inv cfg s)
    (h : step cfg l s = some s') : Inv cfg s' := by
  obtain ⟨hex, hcases⟩ := step_cases h
  rcases hcases with ⟨i, svc, -, h1, -, rfl⟩ | ⟨i, svc, -, h1, -, rfl⟩ | ⟨t, -, hc, rfl⟩ |
    ⟨i, c, -, hc, h1, rfl⟩ | ⟨i, -, hc, h1, rfl⟩ | ⟨-, hc, rfl⟩ | ⟨-, hc, rfl⟩
  · exact inv_step_start hI h1 hex
  · exact inv_step_kill hI svc h1 hex
  · exact inv_step_trigger hI t hc hex
  · exact inv_step_release hI hc h1 hex
  · exact inv_step_exit hI hc h1 hex
  · have := inv_step_plain hI (Act.log LogMsg.exitReceived) CoordPc.loggedExit s.exited
      rfl rfl (by simp) (by rw [hc]; rfl) (by intro x hx; rw [hex] at hx; cases hx)
    exact this
  · have := inv_step_plain hI (Act.osExit 1) s.coord (some 1)
      rfl rfl (by simp) rfl (by intro x hx; cases hx; exact Or.inl rfl)
    exact this

theorem inv_exec {cfg : Config} : ∀ (ls : List Label) {s s' : State}, Inv cfg s →
    exec cfg ls s = some s' → Inv cfg s'
  | [], s, s', hI, h => by
    simp only [exec, Option.some.injEq] at h
    exact h ▸ hI
  | l :: ls, s, s', hI, h => by
    simp only [exec] at h
    cases hs : step cfg l s with
    | none => simp [hs] at h
    | some s1 =>
      rw [hs] at h
      exact inv_exec ls (inv_step hI hs) h

theorem inv_of_reachable {cfg : Config} {s : State} (h : Reachable cfg s) : Inv cfg s := by
  obtain ⟨ls, hls⟩ := h
  exact inv_exec ls (inv_init cfg) hls

/-! ## Order of the shutdown: C4 and C5 -/

theorem ordered_split : ∀ (post : List Act) {tr pre : List Act} {a : Act}, Ordered tr →
    tr = post ++ a :: pre →
    (∀ i, a = Act.kill i → Act.release i ∈ pre) ∧
      (∀ i, a = Act.release i → ∃ t, Act.log (LogMsg.received t) ∈ pre)
  | [], tr, pre, a, h, e => by
    subst e
    exact ⟨h.2.1, h.2.2⟩
  | x :: post, tr, pre, a, h, e => by
    subst e
    exact ordered_split post h.1 rfl

theorem reachable_stKilled : Reachable cfg1 stKilled := ⟨runKilled, rfl⟩

/-- C4: in every reachable state, each `Kill` by a supervisor comes after that
supervisor received from `release`, each receive from `release` comes after
the coordinator handled an interrupt or a shutdown request, and so no child
is killed while no trigger has been handled. -/
theorem kill_only_after_release_and_trigger (cfg : Config) (s : State)
    (h : Reachable cfg s) :
    (∀ i post pre, s.trace = post ++ Act.kill i :: pre → Act.release i ∈ pre) ∧
    (∀ i post pre, s.trace = post ++ Act.release i :: pre →
      ∃ t, Act.log (LogMsg.received t) ∈ pre) ∧
    (∀ i, Act.kill i ∈ s.trace → ∃ t, Act.log (LogMsg.received t) ∈ s.trace) := by
  have hI := inv_of_reachable h
  refine ⟨?_, ?_, ?_⟩
  · intro i post pre e
    exact (ordered_split post hI.order e).1 i rfl
  · intro i post pre e
    exact (ordered_split post hI.order e).2 i rfl
  · intro i hk
    obtain ⟨post, pre, e⟩ := List.append_of_mem hk
    have hr := (ordered_split post hI.order e).1 i rfl
    obtain ⟨post2, pre2, e2⟩ := List.append_of_mem hr
    have e3 : s.trace = (post ++ Act.kill i :: post2) ++ Act.release i :: pre2 := by
      rw [e, e2]; simp
    obtain ⟨t, ht⟩ := (ordered_split _ hI.order e3).2 i rfl
    refine ⟨t, ?_⟩
    rw [e, e2]
    simp [ht]

/-- C4 at the run of one service up to its `Kill`: the state is reachable, it
holds a `Kill`, and the order of the theorem holds in it. -/
theorem kill_only_after_release_and_trigger_witness :
    Reachable cfg1 stKilled ∧ Act.kill 0 ∈ stKilled.trace ∧
    ((∀ i post pre, stKilled.trace = post ++ Act.kill i :: pre → Act.release i ∈ pre) ∧
     (∀ i post pre, stKilled.trace = post ++ Act.release i :: pre →
       ∃ t, Act.log (LogMsg.received t) ∈ pre) ∧
     (∀ i, Act.kill i ∈ stKilled.trace →
       ∃ t, Act.log (LogMsg.received t) ∈ stKilled.trace)) :=
  ⟨reachable_stKilled, by decide,
    kill_only_after_release_and_trigger cfg1 stKilled reachable_stKilled⟩

/-- C5: in every reachable state, whatever triggers were handled, `Kill` has
been called at most once on the process of each service. -/
theorem kill_at_most_once (cfg : Config) (s : State) (h : Reachable cfg s) (i : Nat) :
    s.trace.count (Act.kill i) ≤ 1 := by
  have hI := inv_of_reachable h
  have := hI.sup i
  have h2 : s.trace.count (Act.kill i) = (expected s.sups[i]?).2.1 := by
    rw [← this]; rfl
  rw [h2]
  cases hs : s.sups[i]? with
  | none => simp [expected]
  | some pc => cases pc <;> simp [expected]

/-- C5 at the run of one service up to its `Kill`: the state is reachable, the
one `Kill` is in its trace, and there is no second. -/
theorem kill_at_most_once_witness :
    Reachable cfg1 stKilled ∧ stKilled.trace.count (Act.kill 0) = 1 ∧
    stKilled.trace.count (Act.kill 0) ≤ 1 :=
  ⟨reachable_stKilled, by decide, kill_at_most_once cfg1 stKilled reachable_stKilled 0⟩

/-! ## What each enabled step does -/

theorem step_trigger_eq (cfg : Config) {s : State} (hex : s.exited = none)
    (hc : s.coord = CoordPc.select) (t : Trigger) :
    handleTrigger t s = some { s with coord := CoordPc.sendRelease t
                                      trace := Act.log (LogMsg.received t) :: s.trace } ∧
    step cfg Label.interrupt s = handleTrigger Trigger.interrupt s ∧
    step cfg Label.shutdown s = handleTrigger Trigger.shutdown s := by
  simp [step, handleTrigger, hex, hc]

theorem step_release_eq (cfg : Config) {s : State} {c : Trigger} {i : Nat}
    (hex : s.exited = none) (hc : s.coord = CoordPc.sendRelease c)
    (hi : s.sups[i]? = some SupPc.waiting) :
    step cfg (Label.release i) s =
      some { s with coord := CoordPc.select
                    sups := s.sups.set i SupPc.released
                    trace := Act.release i :: s.trace } := by
  simp [step, hex, hc, hi]

theorem step_kill_eq (cfg : Config) {s : State} {i : Nat} {svc : Service}
    (hex : s.exited = none) (hi : s.sups[i]? = some SupPc.released)
    (hs : cfg.services[i]? = some svc) :
    step cfg (Label.sup i) s = some (killStep cfg i svc s) := by
  simp [step, hex, hi, hs]

theorem step_start_eq (cfg : Config) {s : State} {i : Nat} {svc : Service}
    (hex : s.exited = none) (hi : s.sups[i]? = some SupPc.start)
    (hs : cfg.services[i]? = some svc) :
    step cfg (Label.sup i) s =
      some { s with sups := s.sups.set i SupPc.waiting
                    trace := startActs cfg i svc ++ s.trace } := by
  simp [step, hex, hi, hs]

theorem step_exit_eq (cfg : Config) {s : State} {i : Nat}
    (hex : s.exited = none) (hc : s.coord = CoordPc.select)
    (hi : s.sups[i]? = some SupPc.sending) :
    step cfg (Label.exit i) s =
      some { s with coord := CoordPc.gotExit
                    sups := s.sups.set i SupPc.done
                    trace := Act.exitConfirm i :: s.trace } := by
  simp [step, hex, hc, hi]

theorem step_coord_log_eq (cfg : Config) {s : State}
    (hex : s.exited = none) (hc : s.coord = CoordPc.gotExit) :
    step cfg Label.coord s =
      some { s with coord := CoordPc.loggedExit
                    trace := Act.log LogMsg.exitReceived :: s.trace } := by
  simp [step, exitCase, hex, hc]

theorem step_coord_exit_eq (cfg : Config) {s : State}
    (hex : s.exited = none) (hc : s.coord = CoordPc.loggedExit) :
    step cfg Label.coord s =
      some { s with trace := Act.osExit 1 :: s.trace
                    exited := some 1 } := by
  simp [step, exitCase, hex, hc]

theorem step_status {cfg : Config} {l : Label} {s s' : State}
    (h : step cfg l s = some s') :
    s'.exited = none ∨ s'.exited = some 1 ∨ s'.exited = some 2 := by
  obtain ⟨hex, hcases⟩ := step_cases h
  rcases hcases with ⟨i, svc, -, -, -, rfl⟩ | ⟨i, svc, -, -, -, rfl⟩ | ⟨t, -, -, rfl⟩ |
    ⟨i, c, -, -, -, rfl⟩ | ⟨i, -, -, -, rfl⟩ | ⟨-, -, rfl⟩ | ⟨-, -, rfl⟩
  · exact Or.inl hex
  · unfold killStep
    cases cfg.killRes i
    · exact Or.inl hex
    · exact Or.inr (Or.inl rfl)
    · exact Or.inr (Or.inr rfl)
  · exact Or.inl hex
  · exact Or.inl hex
  · exact Or.inl hex
  · exact Or.inl hex
  · exact Or.inr (Or.inl rfl)

theorem service_of_sup {cfg : Config} {s : State} (hI : Inv cfg s) {i : Nat} {pc : SupPc}
    (hi : s.sups[i]? = some pc) : ∃ svc, cfg.services[i]? = some svc := by
  have hlt : i < s.sups.length := by
    rcases Nat.lt_or_ge i s.sups.length with h1 | h1
    · exact h1
    · rw [List.getElem?_eq_none h1] at hi; cases hi
  rw [hI.len] at hlt
  exact ⟨cfg.services[i], List.getElem?_eq_getElem hlt⟩

/-! ## A failing `Kill`: C8 -/

theorem reachable_stReleasedErr : Reachable cfgKillErr stReleasedErr :=
  ⟨[Label.sup 0, Label.interrupt, Label.release 0], rfl⟩

/-- C8: in every reachable state an Exit Confirmation of supervisor `i` is in
the trace only if its `Kill` returns no error; and when supervisor `i` has
received from `release` and its `Kill` returns an error, its next step ends
the whole process with the non-zero fatal status, with no Exit Confirmation
of `i` sent and no step possible afterwards. -/
theorem kill_error_is_fatal (cfg : Config) (s : State) (i : Nat) (h : Reachable cfg s) :
    (Act.exitConfirm i ∈ s.trace → cfg.killRes i = KillResult.ok) ∧
    (s.exited = none → s.sups[i]? = some SupPc.released →
      cfg.killRes i = KillResult.err →
      ∃ s', step cfg (Label.sup i) s = some s' ∧ s'.exited = some fatalStatus ∧
        fatalStatus ≠ 0 ∧ Act.exitConfirm i ∉ s'.trace ∧ ∀ l, step cfg l s' = none) := by
  have hI := inv_of_reachable h
  have hcnt : s.trace.count (Act.exitConfirm i) = (expected s.sups[i]?).2.2 := by
    rw [← hI.sup i]; rfl
  constructor
  · intro hm
    have hpos : 0 < s.trace.count (Act.exitConfirm i) := List.count_pos_iff.mpr hm
    rw [hcnt] at hpos
    cases hs : s.sups[i]? with
    | none => simp [hs, expected] at hpos
    | some pc =>
      cases pc <;> simp [hs, expected] at hpos
      exact hI.killOk i (Or.inr hs)
  · intro hex hi hk
    obtain ⟨svc, hsvc⟩ := service_of_sup hI hi
    have hno : Act.exitConfirm i ∉ s.trace := by
      intro hm
      have hpos : 0 < s.trace.count (Act.exitConfirm i) := List.count_pos_iff.mpr hm
      rw [hcnt, hi] at hpos
      simp [expected] at hpos
    refine ⟨killStep cfg i svc s, step_kill_eq cfg hex hi hsvc, ?_, by decide, ?_, ?_⟩
    · simp [killStep, hk]
    · simp [killStep, hk, hno]
    · intro l
      exact step_of_exited (c := fatalStatus) (by simp [killStep, hk]) l

/-- C8 for one service whose `Kill` returns an error: the state in which the
supervisor has received from `release` is reachable, and its next step ends
the process with status 1 without an Exit Confirmation. -/
theorem kill_error_is_fatal_witness :
    Reachable cfgKillErr stReleasedErr ∧
    ∃ s', step cfgKillErr (Label.sup 0) stReleasedErr = some s' ∧
      s'.exited = some fatalStatus ∧ fatalStatus ≠ 0 ∧ Act.exitConfirm 0 ∉ s'.trace ∧
      ∀ l, step cfgKillErr l s' = none :=
  ⟨reachable_stReleasedErr,
    (kill_error_is_fatal cfgKillErr stReleasedErr 0 reachable_stReleasedErr).2 rfl rfl rfl⟩

/-! ## The send on `release`: C1 and C3 -/

theorem no_step_of_stuck {cfg : Config} {s : State}
    (hstart : ∀ i : Nat, s.sups[i]? ≠ some SupPc.start)
    (hrel : ∀ i : Nat, s.sups[i]? ≠ some SupPc.released)
    (hwait : ∀ i : Nat, s.sups[i]? ≠ some SupPc.waiting)
    (hsend : ∃ c, s.coord = CoordPc.sendRelease c) (l : Label) : step cfg l s = none := by
  cases h : step cfg l s with
  | none => rfl
  | some s' =>
    obtain ⟨-, hcases⟩ := step_cases h
    obtain ⟨c0, hc0⟩ := hsend
    rcases hcases with ⟨i, svc, -, h1, -, -⟩ | ⟨i, svc, -, h1, -, -⟩ | ⟨t, -, hc, -⟩ |
      ⟨i, c, -, hc, h1, -⟩ | ⟨i, -, hc, h1, -⟩ | ⟨-, hc, -⟩ | ⟨-, hc, -⟩
    · exact absurd h1 (hstart i)
    · exact absurd h1 (hrel i)
    · rw [hc0] at hc; cases hc
    · exact absurd h1 (hwait i)
    · rw [hc0] at hc; cases hc
    · rw [hc0] at hc; cases hc
    · rw [hc0] at hc; cases hc

/-- C1 refuted: two services have started and wait for `release`; the
coordinator handles one interrupt; supervisor 0 receives the value, after
which supervisor 1 cannot receive it; the run goes on to the end of the
process with supervisor 1 still waiting, never released and its child never
killed. In no run of the two services in which one trigger has been handled
has more than one supervisor left its wait. -/
theorem release_consumed_by_one_supervisor :
    (∃ s, exec cfg2 [Label.sup 0, Label.sup 1] (init cfg2) = some s ∧
      s.sups = [SupPc.waiting, SupPc.waiting] ∧ s.coord = CoordPc.select) ∧
    (∃ s, exec cfg2 [Label.sup 0, Label.sup 1, Label.interrupt, Label.release 0]
        (init cfg2) = some s ∧
      s.sups = [SupPc.released, SupPc.waiting] ∧ step cfg2 (Label.release 1) s = none) ∧
    (∃ s, exec cfg2 [Label.sup 0, Label.sup 1, Label.interrupt, Label.release 0,
        Label.sup 0, Label.exit 0, Label.coord, Label.coord] (init cfg2) = some s ∧
      s.sups = [SupPc.done, SupPc.waiting] ∧ s.exited = some 1 ∧
      Act.release 1 ∉ s.trace ∧ Act.kill 1 ∉ s.trace ∧ ∀ l, step cfg2 l s = none) ∧
    (∀ ls s, exec cfg2 ls (init cfg2) = some s → nTriggers s.trace = 1 →
      s.sups.countP pastWait ≤ 1) := by
  refine ⟨⟨_, rfl, rfl, rfl⟩, ⟨_, rfl, rfl, rfl⟩,
    ⟨_, rfl, rfl, rfl, by decide, by decide, ?_⟩, ?_⟩
  · intro l
    exact step_of_exited (c := 1) rfl l
  · intro ls s h ht
    have hI := inv_exec ls (inv_init cfg2) h
    have h1 := hI.recvs
    have h2 := hI.sends
    omega

/-- C1 as amended: a value sent on `release` is received by exactly one
supervisor. In every reachable state the number of supervisors that have left
their wait is the number of values received from `release`, and that number
plus the send in progress is the number of triggers handled. With a single
service that has started and waits, once the idle coordinator handles a
trigger the only enabled step is the receive by that supervisor, which then
leaves its wait and calls `Kill`. -/
theorem release_reaches_one_supervisor (cfg : Config) (s : State) (h : Reachable cfg s) :
    s.sups.countP pastWait = nReleases s.trace ∧
    nReleases s.trace + pending s.coord = nTriggers s.trace ∧
    (s.sups = [SupPc.waiting] → s.exited = none → ∀ t s1, handleTrigger t s = some s1 →
      (∀ l s2, step cfg l s1 = some s2 → l = Label.release 0) ∧
      ∃ s2 s3, step cfg (Label.release 0) s1 = some s2 ∧
        s2.sups = [SupPc.released] ∧ step cfg (Label.sup 0) s2 = some s3 ∧
        Act.kill 0 ∈ s3.trace) := by
  have hI := inv_of_reachable h
  refine ⟨hI.recvs, hI.sends.symm, ?_⟩
  intro hs hex t s1 ht
  have hsel : s.coord = CoordPc.select := by
    cases hc : s.coord with
    | select => rfl
    | _ => simp [handleTrigger, hc] at ht
  have hs1 : s1 = { s with coord := CoordPc.sendRelease t
                           trace := Act.log (LogMsg.received t) :: s.trace } := by
    rw [(step_trigger_eq cfg hex hsel t).1] at ht
    exact (Option.some.inj ht).symm
  have hget : ∀ i pc, s1.sups[i]? = some pc → i = 0 ∧ pc = SupPc.waiting := by
    intro i pc hi
    rw [hs1] at hi
    simp only [hs] at hi
    cases i with
    | zero => simp at hi; exact ⟨rfl, hi.symm⟩
    | succ k => simp at hi
  have hex1 : s1.exited = none := by rw [hs1]; exact hex
  have hc1 : s1.coord = CoordPc.sendRelease t := by rw [hs1]
  have hw1 : s1.sups[0]? = some SupPc.waiting := by rw [hs1]; simp [hs]
  constructor
  · intro l s2 hstep
    obtain ⟨-, hcases⟩ := step_cases hstep
    rcases hcases with ⟨i, svc, -, h1, -, -⟩ | ⟨i, svc, -, h1, -, -⟩ | ⟨t', -, hc, -⟩ |
      ⟨i, c, hl, -, h1, -⟩ | ⟨i, -, hc, -, -⟩ | ⟨-, hc, -⟩ | ⟨-, hc, -⟩
    · exact absurd (hget i _ h1).2 (by decide)
    · exact absurd (hget i _ h1).2 (by decide)
    · rw [hc1] at hc; cases hc
    · rw [hl, (hget i _ h1).1]
    · rw [hc1] at hc; cases hc
    · rw [hc1] at hc; cases hc
    · rw [hc1] at hc; cases hc
  · obtain ⟨svc, hsvc⟩ := service_of_sup hI (show s.sups[0]? = some SupPc.waiting by simp [hs])
    have hs1sups : s1.sups = [SupPc.waiting] := by rw [hs1]; exact hs
    refine ⟨_, _, step_release_eq cfg hex1 hc1 hw1, by simp [hs1sups],
      step_kill_eq cfg (i := 0) hex1 (by simp [hs1sups]) hsvc, ?_⟩
    unfold killStep
    cases cfg.killRes 0 <;> simp

theorem reachable_stWaiting : Reachable cfg1 stWaiting := ⟨[Label.sup 0], rfl⟩

/-- C1 as amended, for the one service of `cfg1` waiting for `release` while
the coordinator handles an interrupt. -/
theorem release_reaches_one_supervisor_witness :
    Reachable cfg1 stWaiting ∧
    handleTrigger Trigger.interrupt stWaiting =
      some { stWaiting with coord := CoordPc.sendRelease Trigger.interrupt
                            trace := Act.log (LogMsg.received Trigger.interrupt) ::
                              stWaiting.trace } ∧
    ((∀ l s2, step cfg1 l { stWaiting with
          coord := CoordPc.sendRelease Trigger.interrupt
          trace := Act.log (LogMsg.received Trigger.interrupt) :: stWaiting.trace } =
        some s2 → l = Label.release 0) ∧
      ∃ s2 s3, step cfg1 (Label.release 0) { stWaiting with
          coord := CoordPc.sendRelease Trigger.interrupt
          trace := Act.log (LogMsg.received Trigger.interrupt) :: stWaiting.trace } =
          some s2 ∧
        s2.sups = [SupPc.released] ∧ step cfg1 (Label.sup 0) s2 = some s3 ∧
        Act.kill 0 ∈ s3.trace) :=
  ⟨reachable_stWaiting, rfl,
    (release_reaches_one_supervisor cfg1 stWaiting reachable_stWaiting).2.2 rfl rfl
      Trigger.interrupt _ rfl⟩

/-- C3 refuted. With one service, a run that handles the interrupt once ends
with status 1; when a second interrupt is handled during the drain the
coordinator leaves its `select` for a second send on `release`, and after
the supervisor has killed its child no step is enabled and the process has
not exited: the Exit Confirmation is never received. With two services the
second trigger produces a second value on `release`. -/
theorem second_trigger_sends_again :
    (∃ s, exec cfg1 [Label.sup 0, Label.interrupt, Label.release 0, Label.sup 0,
        Label.exit 0, Label.coord, Label.coord] (init cfg1) = some s ∧
      s.exited = some 1) ∧
    (∃ s s', exec cfg1 [Label.sup 0, Label.interrupt, Label.release 0] (init cfg1) = some s ∧
      step cfg1 Label.interrupt s = some s' ∧ s.coord = CoordPc.select ∧
      s'.coord = CoordPc.sendRelease Trigger.interrupt) ∧
    (exec cfg1 [Label.sup 0, Label.interrupt, Label.release 0, Label.interrupt,
        Label.sup 0] (init cfg1) = some stStuck ∧
      stStuck.exited = none ∧ Act.exitConfirm 0 ∉ stStuck.trace ∧
      ∀ l, step cfg1 l stStuck = none) ∧
    (∃ s, exec cfg2 [Label.sup 0, Label.sup 1, Label.interrupt, Label.release 0,
        Label.interrupt, Label.release 1] (init cfg2) = some s ∧
      nReleases s.trace = 2 ∧ s.sups = [SupPc.released, SupPc.released]) := by
  refine ⟨⟨_, rfl, rfl⟩, ⟨_, _, rfl, rfl, rfl, rfl⟩, ⟨rfl, rfl, by decide, ?_⟩,
    ⟨_, rfl, by decide, rfl⟩⟩
  intro l
  apply no_step_of_stuck
  · intro i; cases i <;> simp [stStuck]
  · intro i; cases i <;> simp [stStuck]
  · intro i; cases i <;> simp [stStuck]
  · exact ⟨Trigger.interrupt, rfl⟩

/-- C3 as amended: every trigger the coordinator receives, the first and any
later one during the drain alike, is logged and followed by a send on
`release`. In every reachable state the number of triggers handled is the
number of values received from `release` plus the send in progress; from
its `select` the coordinator handles any trigger by moving to the send;
while it is blocked there it receives no Exit Confirmation, and it returns
to the `select` only by a supervisor that still waited receiving the value. -/
theorem every_trigger_sends (cfg : Config) (s : State) (h : Reachable cfg s) :
    nTriggers s.trace = nReleases s.trace + pending s.coord ∧
    (s.exited = none → s.coord = CoordPc.select → ∀ t, ∃ s1,
      handleTrigger t s = some s1 ∧ s1.coord = CoordPc.sendRelease t ∧
      nTriggers s1.trace = nTriggers s.trace + 1 ∧
      (∀ i, step cfg (Label.exit i) s1 = none) ∧
      (∀ i s2, step cfg (Label.release i) s1 = some s2 →
        s.sups[i]? = some SupPc.waiting ∧ s2.coord = CoordPc.select ∧
        nReleases s2.trace = nReleases s.trace + 1)) := by
  have hI := inv_of_reachable h
  refine ⟨hI.sends, ?_⟩
  intro hex hc t
  refine ⟨_, (step_trigger_eq cfg hex hc t).1, rfl, ?_, ?_, ?_⟩
  · simp [nTriggers, List.countP_cons, isTrigger]
  · intro i
    simp [step, hex]
  · intro i s2 hstep
    obtain ⟨-, hcases⟩ := step_cases hstep
    rcases hcases with ⟨j, svc, hl, -, -, -⟩ | ⟨j, svc, hl, -, -, -⟩ | ⟨t', hl, -, -⟩ |
      ⟨j, c, hl, -, h1, rfl⟩ | ⟨j, hl, -, -, -⟩ | ⟨hl, -, -⟩ | ⟨hl, -, -⟩
    · cases hl
    · cases hl
    · rcases hl with ⟨hl, -⟩ | ⟨hl, -⟩ <;> cases hl
    · cases hl
      refine ⟨h1, rfl, ?_⟩
      simp [nReleases, List.countP_cons, isRelease]
    · cases hl
    · cases hl
    · cases hl

/-- C3 as amended, in the drain phase of `cfg1`: the supervisor has been
released and has killed its child, the coordinator is back in its `select`,
and a second interrupt is handled. -/
theorem every_trigger_sends_witness :
    Reachable cfg1 stKilled ∧ nTriggers stKilled.trace = 1 ∧
    ∃ s1, handleTrigger Trigger.interrupt stKilled = some s1 ∧
      s1.coord = CoordPc.sendRelease Trigger.interrupt ∧
      nTriggers s1.trace = nTriggers stKilled.trace + 1 ∧
      (∀ i, step cfg1 (Label.exit i) s1 = none) ∧
      (∀ i s2, step cfg1 (Label.release i) s1 = some s2 →
        stKilled.sups[i]? = some SupPc.waiting ∧ s2.coord = CoordPc.select ∧
        nReleases s2.trace = nReleases stKilled.trace + 1) :=
  ⟨reachable_stKilled, by decide,
    (every_trigger_sends cfg1 stKilled reachable_stKilled).2 rfl rfl Trigger.interrupt⟩

/-! ## Interrupt and shutdown request: C7 -/

theorem forgetCauseAct_idem (a : Act) : forgetCauseAct (forgetCauseAct a) = forgetCauseAct a := by
  cases a with
  | log m => cases m <;> rfl
  | _ => rfl

theorem forgetCausePc_idem (c : CoordPc) : forgetCausePc (forgetCausePc c) = forgetCausePc c := by
  cases c <;> rfl

theorem map_forgetCauseAct_idem (tr : List Act) :
    (tr.map forgetCauseAct).map forgetCauseAct = tr.map forgetCauseAct := by
  simp [List.map_map, Function.comp_def, forgetCauseAct_idem]

theorem forgetCause_killStep (cfg : Config) (i : Nat) (svc : Service) (s : State) :
    forgetCause (killStep cfg i svc (forgetCause s)) = forgetCause (killStep cfg i svc s) := by
  unfold killStep
  cases cfg.killRes i <;>
    simp [forgetCause, forgetCausePc_idem, map_forgetCauseAct_idem, forgetCauseAct] <;>
    exact fun a _ => forgetCauseAct_idem a

theorem step_forgetCause (cfg : Config) (l : Label) (s : State) :
    (step cfg l (forgetCause s)).map forgetCause = (step cfg l s).map forgetCause := by
  cases hex : s.exited with
  | some c => simp [step, forgetCause, hex]
  | none =>
    have hex' : (forgetCause s).exited = none := hex
    have hsups : (forgetCause s).sups = s.sups := rfl
    cases l with
    | sup i =>
      cases h1 : s.sups[i]? with
      | none => simp [step, hex, hex', hsups, h1]
      | some pc =>
        cases h2 : cfg.services[i]? with
        | none => cases pc <;> simp [step, hex, hex', hsups, h1, h2]
        | some svc =>
          cases pc <;> simp [step, hex, hex', hsups, h1, h2, forgetCause_killStep]
          simp [forgetCause, forgetCausePc_idem, map_forgetCauseAct_idem]
          exact fun a _ => forgetCauseAct_idem a
    | interrupt =>
      cases hc : s.coord <;>
        simp [step, hex, hex', handleTrigger, forgetCause, hc, forgetCausePc,
          map_forgetCauseAct_idem, forgetCauseAct]
      exact fun a _ => forgetCauseAct_idem a
    | shutdown =>
      cases hc : s.coord <;>
        simp [step, hex, hex', handleTrigger, forgetCause, hc, forgetCausePc,
          map_forgetCauseAct_idem, forgetCauseAct]
      exact fun a _ => forgetCauseAct_idem a
    | release i =>
      cases hc : s.coord <;> cases h1 : s.sups[i]? with
      | none => simp [step, hex, forgetCause, hc, h1, forgetCausePc]
      | some pc =>
        cases pc <;>
        simp [step, hex, forgetCause, hc, h1, forgetCausePc,
          map_forgetCauseAct_idem, forgetCauseAct] <;>
        exact fun a _ => forgetCauseAct_idem a
    | exit i =>
      cases hc : s.coord <;> cases h1 : s.sups[i]? with
      | none => simp [step, hex, forgetCause, hc, h1, forgetCausePc]
      | some pc =>
        cases pc <;>
        simp [step, hex, forgetCause, hc, h1, forgetCausePc,
          map_forgetCauseAct_idem, forgetCauseAct] <;>
        exact fun a _ => forgetCauseAct_idem a
    | coord =>
      cases hc : s.coord <;>
        simp [step, hex, exitCase, forgetCause, hc, forgetCausePc,
          map_forgetCauseAct_idem, forgetCauseAct] <;>
        exact fun a _ => forgetCauseAct_idem a

theorem forgetCause_idem (s : State) : forgetCause (forgetCause s) = forgetCause s := by
  simp only [forgetCause, forgetCausePc_idem, map_forgetCauseAct_idem]

theorem exec_forgetCause (cfg : Config) : ∀ (ls : List Label) (s : State),
    (exec cfg ls (forgetCause s)).map forgetCause = (exec cfg ls s).map forgetCause
  | [], s => by simp [exec, forgetCause_idem]
  | l :: ls, s => by
    simp only [exec]
    have h := step_forgetCause cfg l s
    cases h1 : step cfg l s with
    | none =>
      rw [h1] at h
      cases h2 : step cfg l (forgetCause s) with
      | none => rfl
      | some x => rw [h2] at h; simp at h
    | some s1 =>
      rw [h1] at h
      cases h2 : step cfg l (forgetCause s) with
      | none => rw [h2] at h; simp at h
      | some s2 =>
        rw [h2] at h
        simp only [Option.map_some', Option.some.injEq] at h
        simp only [Option.some_bind]
        rw [← exec_forgetCause cfg ls s2, h, exec_forgetCause cfg ls s1]


theorem observe_forgetCause (s : State) : observe (forgetCause s) = observe s := by
  have h : ∀ tr : List Act, nReleases (tr.map forgetCauseAct) = nReleases tr := by
    intro tr
    induction tr with
    | nil => rfl
    | cons a tr ih =>
      have ha : isRelease (forgetCauseAct a) = isRelease a := by
        cases a with
        | log m => cases m <;> rfl
        | _ => rfl
      simp only [nReleases, List.map_cons, List.countP_cons, ha] at ih ⊢
      rw [ih]
  simp [observe, forgetCause, h]

/-- C7: handling a shutdown request and handling an interrupt are enabled in
the same states; the state after the shutdown request is the state after the
interrupt with the logged message (and the line of the pending send)
exchanged; and whatever steps follow, the two runs end in the same state up
to that message, with the same supervisors, the same exit status and the
same number of values sent on `release`. -/
theorem shutdown_request_same_as_interrupt (cfg : Config) (s : State) (ls : List Label) :
    step cfg Label.shutdown s =
      (step cfg Label.interrupt s).map (fun s1 =>
        { s1 with coord := CoordPc.sendRelease Trigger.shutdown
                  trace := Act.log (LogMsg.received Trigger.shutdown) :: s1.trace.tail }) ∧
    (step cfg Label.interrupt s).map (fun s1 => s1.trace) =
      (step cfg Label.interrupt s).map (fun _ =>
        Act.log (LogMsg.received Trigger.interrupt) :: s.trace) ∧
    ((step cfg Label.shutdown s).bind (exec cfg ls)).map forgetCause =
      ((step cfg Label.interrupt s).bind (exec cfg ls)).map forgetCause ∧
    ((step cfg Label.shutdown s).bind (exec cfg ls)).map observe =
      ((step cfg Label.interrupt s).bind (exec cfg ls)).map observe := by
  have key : ((step cfg Label.shutdown s).bind (exec cfg ls)).map forgetCause =
      ((step cfg Label.interrupt s).bind (exec cfg ls)).map forgetCause := by
    cases hex : s.exited with
    | some c => simp [step, hex]
    | none =>
      cases hc : s.coord with
      | sendRelease c => simp [step, hex, handleTrigger, hc]
      | gotExit => simp [step, hex, handleTrigger, hc]
      | loggedExit => simp [step, hex, handleTrigger, hc]
      | select =>
        have hs := step_trigger_eq cfg hex hc Trigger.shutdown
        have hi := step_trigger_eq cfg hex hc Trigger.interrupt
        rw [hs.2.2, hi.2.1, hs.1, hi.1]
        simp only [Option.some_bind]
        calc _ = (exec cfg ls (forgetCause { s with
                    coord := CoordPc.sendRelease Trigger.shutdown
                    trace := Act.log (LogMsg.received Trigger.shutdown) :: s.trace })).map
                  forgetCause := (exec_forgetCause cfg ls _).symm
          _ = (exec cfg ls (forgetCause { s with
                    coord := CoordPc.sendRelease Trigger.interrupt
                    trace := Act.log (LogMsg.received Trigger.interrupt) :: s.trace })).map
                  forgetCause := rfl
          _ = _ := exec_forgetCause cfg ls _
  refine ⟨?_, ?_, key, ?_⟩
  · cases hex : s.exited with
    | some c => simp [step, hex]
    | none => cases hc : s.coord <;> simp [step, hex, handleTrigger, hc]
  · cases hex : s.exited with
    | some c => simp [step, hex]
    | none => cases hc : s.coord <;> simp [step, hex, handleTrigger, hc]
  · have h2 := congrArg (Option.map observe) key
    simpa [Option.map_map, Function.comp_def, observe_forgetCause] using h2

/-! ## A failing start: C2 -/

/-- C2 on the code, for one service whose `process.Start` returns an error:
after logging the error and the descriptor the supervisor logs `running`,
waits on `release`, takes the value the coordinator sends after an
interrupt and calls `Kill` on the handle it was given. -/
theorem failed_start_falls_through :
    cfgFail.startErr 0 = true ∧
    ∃ s, exec cfgFail [Label.sup 0, Label.interrupt, Label.release 0, Label.sup 0]
        (init cfgFail) = some s ∧
      s.trace = [Act.osExit 2, Act.panic 0, Act.kill 0, Act.release 0,
        Act.log (LogMsg.received Trigger.interrupt), Act.log (LogMsg.running "a" 0),
        Act.log (LogMsg.descriptor (svc "a")), Act.log (LogMsg.unableToStart "a"),
        Act.startCall 0 "a" "." []] :=
  ⟨rfl, _, rfl, rfl⟩

theorem exec_append (cfg : Config) : ∀ (a b : List Label) (s : State),
    exec cfg (a ++ b) s = (exec cfg a s).bind (exec cfg b)
  | [], b, s => rfl
  | l :: a, b, s => by
    simp only [List.cons_append, exec]
    cases step cfg l s with
    | none => rfl
    | some s1 => exact exec_append cfg a b s1

theorem mem_startActs (cfg : Config) (i : Nat) (svc : Service) :
    Act.startCall i svc.Binary svc.Dir svc.Args ∈ startActs cfg i svc ∧
    Act.log (LogMsg.running svc.FullPath svc.Port) ∈ startActs cfg i svc ∧
    (cfg.startErr i = true →
      Act.log (LogMsg.unableToStart svc.Name) ∈ startActs cfg i svc ∧
      Act.log (LogMsg.descriptor svc) ∈ startActs cfg i svc) := by
  unfold startActs
  cases cfg.startErr i <;> simp

theorem start_prefix (cfg : Config) : ∀ k, k ≤ cfg.services.length →
    ∃ s, exec cfg ((List.range k).map Label.sup) (init cfg) = some s ∧
      s.exited = none ∧ s.coord = CoordPc.select ∧
      (∀ j, j < k → s.sups[j]? = some SupPc.waiting) ∧
      (∀ j, k ≤ j → j < cfg.services.length → s.sups[j]? = some SupPc.start) ∧
      (∀ j svc, j < k → cfg.services[j]? = some svc →
        Act.startCall j svc.Binary svc.Dir svc.Args ∈ s.trace ∧
        Act.log (LogMsg.running svc.FullPath svc.Port) ∈ s.trace)
  | 0, _ => by
    refine ⟨init cfg, rfl, rfl, rfl, ?_, ?_, ?_⟩
    · intro j hj; omega
    · intro j _ hj
      simp only [init, List.getElem?_map, List.getElem?_eq_getElem hj, Option.map_some']
    · intro j svc hj; omega
  | k + 1, hk => by
    obtain ⟨s, hrun, hex, hc, hw, hst, htr⟩ := start_prefix cfg k (by omega)
    have hk' : k < cfg.services.length := by omega
    have hsk : s.sups[k]? = some SupPc.start := hst k (Nat.le_refl k) hk'
    have hsvc : cfg.services[k]? = some cfg.services[k] := List.getElem?_eq_getElem hk'
    refine ⟨{ s with sups := s.sups.set k SupPc.waiting
                     trace := startActs cfg k cfg.services[k] ++ s.trace },
      ?_, ?_, ?_, ?_, ?_, ?_⟩
    · rw [List.range_succ, List.map_append, exec_append, hrun]
      simp only [List.map_cons, List.map_nil, Option.some_bind, exec]
      rw [step_start_eq cfg hex hsk hsvc]
      rfl
    · exact hex
    · exact hc
    · intro j hj
      simp only [getElem?_set_of_some _ hsk]
      by_cases hjk : j = k
      · simp [hjk]
      · simp only [hjk, if_false]
        exact hw j (by omega)
    · intro j hj1 hj2
      simp only [getElem?_set_of_some _ hsk]
      have hjk : j ≠ k := by omega
      simp only [hjk, if_false]
      exact hst j (by omega) hj2
    · intro j svc hj hjs
      by_cases hjk : j = k
      · subst hjk
        rw [hsvc] at hjs
        cases hjs
        have := mem_startActs cfg j cfg.services[j]
        exact ⟨List.mem_append_left _ this.1, List.mem_append_left _ this.2.1⟩
      · have := htr j svc (by omega) hjs
        exact ⟨List.mem_append_right _ this.1, List.mem_append_right _ this.2⟩

/-! ## The exit case of the coordinator: C6 -/

theorem startActs_no_exitConfirm (cfg : Config) (i : Nat) (svc : Service) :
    (startActs cfg i svc).countP isExitConfirm = 0 := by
  unfold startActs
  cases cfg.startErr i <;> simp [List.countP_cons, isExitConfirm]

theorem exitCase_step {cfg : Config} {l : Label} {s s' : State}
    (h : step cfg l s = some s') (hin : inExitCase s.coord = true) :
    inExitCase s'.coord = true ∧
    s'.trace.countP isExitConfirm = s.trace.countP isExitConfirm ∧
    (∀ c, s'.exited = some c → c = 1 ∨
      (c = 2 ∧ ∃ j, cfg.killRes j = KillResult.nilPanic ∧ Act.panic j ∈ s'.trace)) := by
  obtain ⟨hex, hcases⟩ := step_cases h
  rcases hcases with ⟨i, svc, -, -, -, rfl⟩ | ⟨i, svc, -, -, -, rfl⟩ | ⟨t, -, hc, rfl⟩ |
    ⟨i, c, -, hc, -, rfl⟩ | ⟨i, -, hc, -, rfl⟩ | ⟨-, hc, rfl⟩ | ⟨-, hc, rfl⟩
  · refine ⟨hin, ?_, ?_⟩
    · simp [List.countP_append, startActs_no_exitConfirm]
    · intro c hc; simp [hex] at hc
  · unfold killStep
    cases hk : cfg.killRes i with
    | ok =>
      refine ⟨hin, by simp [List.countP_cons, isExitConfirm], ?_⟩
      intro c hc; simp [hex] at hc
    | err =>
      refine ⟨hin, by simp [List.countP_cons, isExitConfirm], ?_⟩
      intro c hc
      simp only [Option.some.injEq, fatalStatus] at hc
      exact Or.inl hc.symm
    | nilPanic =>
      refine ⟨hin, by simp [List.countP_cons, isExitConfirm], ?_⟩
      intro c hc
      simp only [Option.some.injEq, panicStatus] at hc
      exact Or.inr ⟨hc.symm, i, hk, by simp⟩
  · rw [hc] at hin; cases hin
  · rw [hc] at hin; cases hin
  · rw [hc] at hin; cases hin
  · refine ⟨rfl, by simp [List.countP_cons, isExitConfirm], ?_⟩
    intro c hc; simp [hex] at hc
  · refine ⟨hin, by simp [List.countP_cons, isExitConfirm], ?_⟩
    intro c hc
    simp only [Option.some.injEq] at hc
    exact Or.inl hc.symm

theorem exitCase_exec {cfg : Config} : ∀ (ls : List Label) {s s2 : State},
    inExitCase s.coord = true → s.exited = none → exec cfg ls s = some s2 →
    inExitCase s2.coord = true ∧
    s2.trace.countP isExitConfirm = s.trace.countP isExitConfirm ∧
    (∀ c, s2.exited = some c → c = 1 ∨
      (c = 2 ∧ ∃ j, cfg.killRes j = KillResult.nilPanic ∧ Act.panic j ∈ s2.trace))
  | [], s, s2, hin, hex, h => by
    simp only [exec, Option.some.injEq] at h
    subst h
    exact ⟨hin, rfl, by intro c hc; simp [hex] at hc⟩
  | l :: ls, s, s2, hin, hex, h => by
    simp only [exec] at h
    cases hs : step cfg l s with
    | none => simp [hs] at h
    | some s1 =>
      rw [hs] at h
      simp only [Option.some_bind] at h
      obtain ⟨hin1, hcnt1, hst1⟩ := exitCase_step hs hin
      cases hex1 : s1.exited with
      | none =>
        obtain ⟨a, b, c⟩ := exitCase_exec ls hin1 hex1 h
        exact ⟨a, b.trans hcnt1, c⟩
      | some x =>
        cases ls with
        | nil =>
          simp only [exec, Option.some.injEq] at h
          subst h
          exact ⟨hin1, hcnt1, hst1⟩
        | cons l2 ls2 =>
          simp only [exec, step_of_exited hex1 l2] at h
          simp at h

theorem coord_finishes (cfg : Config) {s : State} (hin : inExitCase s.coord = true)
    (hex : s.exited = none) :
    ∃ ls s3, (ls = [Label.coord] ∨ ls = [Label.coord, Label.coord]) ∧
      exec cfg ls s = some s3 ∧ s3.exited = some 1 ∧ s3.trace.head? = some (Act.osExit 1) ∧
      s3.sups = s.sups := by
  cases hc : s.coord with
  | select => rw [hc] at hin; cases hin
  | sendRelease t => rw [hc] at hin; cases hin
  | gotExit =>
    refine ⟨[Label.coord, Label.coord],
      { s with coord := CoordPc.loggedExit
               trace := Act.osExit 1 :: Act.log LogMsg.exitReceived :: s.trace
               exited := some 1 }, Or.inr rfl, ?_, ?_, ?_, ?_⟩
    · simp only [exec, step_coord_log_eq cfg hex hc, Option.some_bind]
      rw [step_coord_exit_eq cfg (s := { s with
        coord := CoordPc.loggedExit
        trace := Act.log LogMsg.exitReceived :: s.trace }) hex rfl]
      rfl
    · rfl
    · rfl
    · rfl
  | loggedExit =>
    refine ⟨[Label.coord],
      { s with trace := Act.osExit 1 :: s.trace
               exited := some 1 }, Or.inl rfl, ?_, ?_, ?_, ?_⟩
    · simp only [exec, step_coord_exit_eq cfg hex hc, Option.some_bind]
    · rfl
    · rfl
    · rfl

/-- C6: whatever the other supervisors are doing, once a supervisor is
blocked in its send on `exit` and the coordinator is in its `select`, the
receive of that single Exit Confirmation is enabled and touches no other
supervisor. From then on, in every continuation and under every
interleaving with the supervisors, the coordinator stays in its exit case
and receives no further Exit Confirmation; as long as the process lives its
next statement is enabled, and its own statements alone end the process by
`os.Exit(1)`; if the process has ended, its status is 1, or 2 when the `Kill`
of a supervisor panicked in between. No step ends the process with status
0, and a step of the coordinator that ends it gives status 1. -/
theorem exit_confirmation_ends_process (cfg : Config) (s : State) (i : Nat)
    (hex : s.exited = none) (hc : s.coord = CoordPc.select)
    (hi : s.sups[i]? = some SupPc.sending) :
    (∃ s1, step cfg (Label.exit i) s = some s1 ∧ s1.coord = CoordPc.gotExit ∧
      s1.exited = none ∧ (∀ j, j ≠ i → s1.sups[j]? = s.sups[j]?) ∧
      ∀ ls s2, exec cfg ls s1 = some s2 →
        inExitCase s2.coord = true ∧
        s2.trace.countP isExitConfirm = s1.trace.countP isExitConfirm ∧
        (s2.exited = none →
          (∃ s3, step cfg Label.coord s2 = some s3) ∧
          ∃ ls' s3, (ls' = [Label.coord] ∨ ls' = [Label.coord, Label.coord]) ∧
            exec cfg ls' s2 = some s3 ∧ s3.exited = some 1 ∧
            s3.trace.head? = some (Act.osExit 1) ∧ s3.sups = s2.sups) ∧
        (∀ c, s2.exited = some c → c = 1 ∨
          (c = 2 ∧ ∃ j, cfg.killRes j = KillResult.nilPanic ∧ Act.panic j ∈ s2.trace))) ∧
    (∀ l t t', step cfg l t = some t' → t'.exited ≠ some 0) ∧
    (∀ t t', step cfg Label.coord t = some t' → t'.exited = none ∨ t'.exited = some 1) := by
  refine ⟨⟨_, step_exit_eq cfg hex hc hi, rfl, hex, ?_, ?_⟩, ?_, ?_⟩
  · intro j hj
    simp [getElem?_set_of_some _ hi, hj]
  · intro ls s2 hrun
    obtain ⟨h1, h2, h3⟩ := exitCase_exec ls (s := { s with
      coord := CoordPc.gotExit
      sups := s.sups.set i SupPc.done
      trace := Act.exitConfirm i :: s.trace }) rfl hex hrun
    refine ⟨h1, h2, ?_, h3⟩
    intro hex2
    refine ⟨?_, coord_finishes cfg h1 hex2⟩
    cases hc2 : s2.coord with
    | select => rw [hc2] at h1; cases h1
    | sendRelease t => rw [hc2] at h1; cases h1
    | gotExit => exact ⟨_, step_coord_log_eq cfg hex2 hc2⟩
    | loggedExit => exact ⟨_, step_coord_exit_eq cfg hex2 hc2⟩
  · intro l t t' h
    rcases step_status h with h1 | h1 | h1 <;> simp [h1]
  · intro t t' h
    obtain ⟨hext, hcases⟩ := step_cases h
    rcases hcases with ⟨i, svc, hl, -, -, -⟩ | ⟨i, svc, hl, -, -, -⟩ | ⟨t, hl, -, -⟩ |
      ⟨i, c, hl, -, -, -⟩ | ⟨i, hl, -, -, -⟩ | ⟨-, -, rfl⟩ | ⟨-, -, rfl⟩
    · cases hl
    · cases hl
    · rcases hl with ⟨hl, -⟩ | ⟨hl, -⟩ <;> cases hl
    · cases hl
    · cases hl
    · exact Or.inl hext
    · exact Or.inr rfl

/-- The runs in which a supervisor acts between the receive from `exit` and
`os.Exit(1)`: with two services, B is killed after the coordinator has
logged the exit signal, and the process ends with status 1; in the scenario
of `stWindow`, the `Kill` of B panics after the receive and the process
ends with status 2. -/
theorem exit_window_runs :
    (∃ s, exec cfg2 [Label.sup 0, Label.sup 1, Label.interrupt, Label.release 0,
        Label.sup 0, Label.interrupt, Label.release 1, Label.exit 0, Label.coord,
        Label.sup 1, Label.coord] (init cfg2) = some s ∧
      s.exited = some 1 ∧
      s.trace.take 5 = [Act.osExit 1, Act.log (LogMsg.exited "b"),
        Act.log (LogMsg.killed "b"), Act.kill 1, Act.log LogMsg.exitReceived]) ∧
    exec cfg3 [Label.sup 0, Label.sup 1, Label.sup 2, Label.interrupt, Label.release 0,
      Label.sup 0, Label.interrupt, Label.release 1] (init cfg3) = some stWindow ∧
    (∃ s, exec cfg3 [Label.exit 0, Label.sup 1] stWindow = some s ∧
      s.exited = some 2 ∧ s.coord = CoordPc.gotExit) :=
  ⟨⟨_, rfl, rfl, rfl⟩, rfl, ⟨_, rfl, rfl, rfl⟩⟩

/-- C6 at `stWindow`, where B has been released and stands before its `Kill`
and C still waits: the one Exit Confirmation of A is received, and what the
theorem says of every continuation holds there. -/
theorem exit_confirmation_ends_process_witness :
    stWindow.sups = [SupPc.sending, SupPc.released, SupPc.waiting] ∧
    ((∃ s1, step cfg3 (Label.exit 0) stWindow = some s1 ∧ s1.coord = CoordPc.gotExit ∧
      s1.exited = none ∧ (∀ j, j ≠ 0 → s1.sups[j]? = stWindow.sups[j]?) ∧
      ∀ ls s2, exec cfg3 ls s1 = some s2 →
        inExitCase s2.coord = true ∧
        s2.trace.countP isExitConfirm = s1.trace.countP isExitConfirm ∧
        (s2.exited = none →
          (∃ s3, step cfg3 Label.coord s2 = some s3) ∧
          ∃ ls' s3, (ls' = [Label.coord] ∨ ls' = [Label.coord, Label.coord]) ∧
            exec cfg3 ls' s2 = some s3 ∧ s3.exited = some 1 ∧
            s3.trace.head? = some (Act.osExit 1) ∧ s3.sups = s2.sups) ∧
        (∀ c, s2.exited = some c → c = 1 ∨
          (c = 2 ∧ ∃ j, cfg3.killRes j = KillResult.nilPanic ∧ Act.panic j ∈ s2.trace))) ∧
    (∀ l t t', step cfg3 l t = some t' → t'.exited ≠ some 0) ∧
    (∀ t t', step cfg3 Label.coord t = some t' → t'.exited = none ∨ t'.exited = some 1)) :=
  ⟨rfl, exit_confirmation_ends_process cfg3 stWindow 0 rfl rfl rfl⟩

/-! ## A failing start: C9 -/

theorem nKills_append (a b : List Act) : nKills (a ++ b) = nKills a + nKills b := by
  simp [nKills]

theorem startActs_nKills (cfg : Config) (i : Nat) (svc : Service) :
    nKills (startActs cfg i svc) = 0 := by
  unfold nKills startActs
  cases cfg.startErr i <;> simp [List.countP_cons, isKill]

theorem invStarted_init (cfg : Config) : InvStarted cfg (init cfg) where
  kills := by
    simp only [init, nKills, List.countP_nil]
    induction cfg.services with
    | nil => rfl
    | cons x l ih => simp [List.countP_cons, hasKilled]
  started := by
    intro j svc pc _ hpc hne
    simp only [init, List.getElem?_map] at hpc
    cases hs : cfg.services[j]? with
    | none => simp [hs] at hpc
    | some x =>
      simp only [hs, Option.map_some', Option.some.injEq] at hpc
      exact absurd hpc.symm hne

theorem invStarted_of_grow {cfg : Config} {s : State} (hJ : InvStarted cfg s)
    (i : Nat) (old new : SupPc) (hi : s.sups[i]? = some old) (acts : List Act)
    (c : CoordPc) (e : Option Nat)
    (hk : (s.sups.set i new).countP hasKilled = nKills acts + s.sups.countP hasKilled)
    (hst : old = SupPc.start → ∀ svc, cfg.services[i]? = some svc →
      Act.startCall i svc.Binary svc.Dir svc.Args ∈ acts ∧
        Act.log (LogMsg.running svc.FullPath svc.Port) ∈ acts) :
    InvStarted cfg { sups := s.sups.set i new, coord := c, trace := acts ++ s.trace,
                     exited := e } where
  kills := by
    simp only [nKills_append]
    rw [hk, hJ.kills]
  started := by
    intro j svc pc hsvc hpc hne
    simp only [getElem?_set_of_some _ hi] at hpc
    by_cases hji : j = i
    · subst hji
      by_cases ho : old = SupPc.start
      · have := hst ho svc hsvc
        exact ⟨List.mem_append_left _ this.1, List.mem_append_left _ this.2⟩
      · have := hJ.started j svc old hsvc hi ho
        exact ⟨List.mem_append_right _ this.1, List.mem_append_right _ this.2⟩
    · simp only [hji, if_false] at hpc
      have := hJ.started j svc pc hsvc hpc hne
      exact ⟨List.mem_append_right _ this.1, List.mem_append_right _ this.2⟩

theorem invStarted_of_coord {cfg : Config} {s : State} (hJ : InvStarted cfg s)
    (a : Act) (c : CoordPc) (e : Option Nat) (ha : isKill a = false) :
    InvStarted cfg { s with coord := c, trace := a :: s.trace, exited := e } where
  kills := by
    have := hJ.kills
    simp only [nKills] at this ⊢
    simp [List.countP_cons, ha, this]
  started := by
    intro j svc pc hsvc hpc hne
    have := hJ.started j svc pc hsvc hpc hne
    exact ⟨List.mem_cons_of_mem _ this.1, List.mem_cons_of_mem _ this.2⟩

theorem invStarted_step {cfg : Config} {l : Label} {s s' : State} (hJ : InvStarted cfg s)
    (h : step cfg l s = some s') : InvStarted cfg s' := by
  obtain ⟨hex, hcases⟩ := step_cases h
  rcases hcases with ⟨i, svc, -, h1, hsvc, rfl⟩ | ⟨i, svc, -, h1, -, rfl⟩ | ⟨t, -, -, rfl⟩ |
    ⟨i, c, -, -, h1, rfl⟩ | ⟨i, -, -, h1, rfl⟩ | ⟨-, -, rfl⟩ | ⟨-, -, rfl⟩
  · refine invStarted_of_grow hJ i SupPc.start SupPc.waiting h1 (startActs cfg i svc) _ _ ?_ ?_
    · rw [countP_set_of_same hasKilled s.sups i SupPc.start SupPc.waiting h1 rfl,
        startActs_nKills, Nat.zero_add]
    · intro _ svc' hsvc'
      rw [hsvc] at hsvc'
      cases hsvc'
      exact ⟨(mem_startActs cfg i svc).1, (mem_startActs cfg i svc).2.1⟩
  · unfold killStep
    cases cfg.killRes i with
    | ok =>
      refine invStarted_of_grow hJ i SupPc.released SupPc.sending h1
        [Act.log (LogMsg.exited svc.Binary), Act.log (LogMsg.killed svc.Binary), Act.kill i]
        _ _ ?_ ?_
      · rw [countP_set_of_true hasKilled s.sups i SupPc.released SupPc.sending h1 rfl rfl]
        simp [nKills, List.countP_cons, isKill, Nat.add_comm]
      · intro ho; cases ho
    | err =>
      refine invStarted_of_grow hJ i SupPc.released SupPc.fatal h1
        [Act.osExit fatalStatus, Act.log (LogMsg.unableToKill svc.Binary), Act.kill i]
        _ _ ?_ ?_
      · rw [countP_set_of_true hasKilled s.sups i SupPc.released SupPc.fatal h1 rfl rfl]
        simp [nKills, List.countP_cons, isKill, Nat.add_comm]
      · intro ho; cases ho
    | nilPanic =>
      refine invStarted_of_grow hJ i SupPc.released SupPc.fatal h1
        [Act.osExit panicStatus, Act.panic i, Act.kill i] _ _ ?_ ?_
      · rw [countP_set_of_true hasKilled s.sups i SupPc.released SupPc.fatal h1 rfl rfl]
        simp [nKills, List.countP_cons, isKill, Nat.add_comm]
      · intro ho; cases ho
  · exact invStarted_of_coord hJ _ _ _ rfl
  · refine invStarted_of_grow hJ i SupPc.waiting SupPc.released h1 [Act.release i] _ _ ?_ ?_
    · rw [countP_set_of_same hasKilled s.sups i SupPc.waiting SupPc.released h1 rfl]
      simp [nKills, List.countP_cons, isKill]
    · intro ho; cases ho
  · refine invStarted_of_grow hJ i SupPc.sending SupPc.done h1 [Act.exitConfirm i] _ _ ?_ ?_
    · rw [countP_set_of_same hasKilled s.sups i SupPc.sending SupPc.done h1 rfl]
      simp [nKills, List.countP_cons, isKill]
    · intro ho; cases ho
  · exact invStarted_of_coord hJ _ _ _ rfl
  · exact invStarted_of_coord hJ _ _ _ rfl

theorem invStarted_exec {cfg : Config} : ∀ (ls : List Label) {s s' : State},
    InvStarted cfg s → exec cfg ls s = some s' → InvStarted cfg s'
  | [], s, s', hJ, h => by
    simp only [exec, Option.some.injEq] at h
    exact h ▸ hJ
  | l :: ls, s, s', hJ, h => by
    simp only [exec] at h
    cases hs : step cfg l s with
    | none => simp [hs] at h
    | some s1 =>
      rw [hs] at h
      exact invStarted_exec ls (invStarted_step hJ hs) h

theorem kills_le_releases {cfg : Config} {s : State} (hI : Inv cfg s)
    (hJ : InvStarted cfg s) : nKills s.trace ≤ nReleases s.trace := by
  rw [← hJ.kills, ← hI.recvs]
  apply List.countP_mono_left
  intro pc _ h
  cases pc <;> simp [hasKilled, pastWait] at h ⊢

theorem shutdown_run (cfg : Config) {s : State} {j : Nat} {svc : Service}
    (hex : s.exited = none) (hc : s.coord = CoordPc.select)
    (hj : s.sups[j]? = some SupPc.waiting) (hsvc : cfg.services[j]? = some svc)
    (hk : cfg.killRes j = KillResult.ok) :
    ∃ s', exec cfg [Label.interrupt, Label.release j, Label.sup j, Label.exit j,
        Label.coord, Label.coord] s = some s' ∧
      Act.kill j ∈ s'.trace ∧ Act.exitConfirm j ∈ s'.trace ∧ s'.exited = some 1 ∧
      nTriggers s'.trace = nTriggers s.trace + 1 ∧
      (∀ k, k ≠ j → Act.kill k ∈ s'.trace → Act.kill k ∈ s.trace) ∧
      (∀ k, k ≠ j → s'.sups[k]? = s.sups[k]?) ∧
      ∀ l, step cfg l s' = none := by
  have h1 := step_trigger_eq cfg hex hc Trigger.interrupt
  have h2 := step_release_eq cfg (c := Trigger.interrupt) (i := j)
    (s := { s with coord := CoordPc.sendRelease Trigger.interrupt
                   trace := Act.log (LogMsg.received Trigger.interrupt) :: s.trace })
    hex rfl hj
  have hj3 : (s.sups.set j SupPc.released)[j]? = some SupPc.released := by
    simp [getElem?_set_of_some _ hj]
  have h3 := step_kill_eq cfg (i := j)
    (s := { s with coord := CoordPc.select
                   sups := s.sups.set j SupPc.released
                   trace := Act.release j :: Act.log (LogMsg.received Trigger.interrupt) ::
                     s.trace })
    hex hj3 hsvc
  have hj4 : ((s.sups.set j SupPc.released).set j SupPc.sending)[j]? =
      some SupPc.sending := by
    rw [getElem?_set_of_some _ hj3]
    simp
  have h4 := step_exit_eq cfg (i := j)
    (s := { s with
      coord := CoordPc.select
      sups := (s.sups.set j SupPc.released).set j SupPc.sending
      trace := Act.log (LogMsg.exited svc.Binary) :: Act.log (LogMsg.killed svc.Binary) ::
        Act.kill j :: Act.release j :: Act.log (LogMsg.received Trigger.interrupt) ::
        s.trace })
    hex rfl hj4
  have h5 := step_coord_log_eq cfg
    (s := { s with
      coord := CoordPc.gotExit
      sups := ((s.sups.set j SupPc.released).set j SupPc.sending).set j SupPc.done
      trace := Act.exitConfirm j :: Act.log (LogMsg.exited svc.Binary) ::
        Act.log (LogMsg.killed svc.Binary) :: Act.kill j :: Act.release j ::
        Act.log (LogMsg.received Trigger.interrupt) :: s.trace })
    hex rfl
  have h6 := step_coord_exit_eq cfg
    (s := { s with
      coord := CoordPc.loggedExit
      sups := ((s.sups.set j SupPc.released).set j SupPc.sending).set j SupPc.done
      trace := Act.log LogMsg.exitReceived :: Act.exitConfirm j ::
        Act.log (LogMsg.exited svc.Binary) :: Act.log (LogMsg.killed svc.Binary) ::
        Act.kill j :: Act.release j :: Act.log (LogMsg.received Trigger.interrupt) ::
        s.trace })
    hex rfl
  refine ⟨{ s with
      coord := CoordPc.loggedExit
      sups := ((s.sups.set j SupPc.released).set j SupPc.sending).set j SupPc.done
      trace := Act.osExit 1 :: Act.log LogMsg.exitReceived :: Act.exitConfirm j ::
        Act.log (LogMsg.exited svc.Binary) :: Act.log (LogMsg.killed svc.Binary) ::
        Act.kill j :: Act.release j :: Act.log (LogMsg.received Trigger.interrupt) :: s.trace
      exited := some 1 }, ?_, ?_, ?_, ?_, ?_, ?_, ?_, ?_⟩
  · simp only [exec, h1.2.1, h1.1, Option.some_bind, h2, h3]
    simp only [killStep, hk]
    rw [h4]
    simp only [Option.some_bind]
    rw [h5]
    simp only [Option.some_bind]
    rw [h6]
    rfl
  · simp
  · simp
  · rfl
  · simp [nTriggers, List.countP_cons, isTrigger]
  · intro k hkj hm
    have hkj' : ¬ k = j := hkj
    simpa [hkj'] using hm
  · intro k hkj
    simp only [getElem?_set_of_some _ hj4, getElem?_set_of_some _ hj3,
      getElem?_set_of_some _ hj, hkj, if_false]
  · intro l
    exact step_of_exited (c := 1) rfl l

theorem fresh_of_all_waiting {cfg : Config} {s : State} (hI : Inv cfg s)
    (hc : s.coord = CoordPc.select)
    (hw : ∀ j, j < cfg.services.length → s.sups[j]? = some SupPc.waiting) :
    nTriggers s.trace = 0 ∧ ∀ k, Act.kill k ∉ s.trace := by
  constructor
  · have h1 := hI.sends
    have h2 := hI.recvs
    rw [hc] at h1
    simp only [pending] at h1
    have h3 : s.sups.countP pastWait = 0 := by
      rw [List.countP_eq_zero]
      intro pc hpc
      obtain ⟨n, hn⟩ := List.mem_iff_getElem?.mp hpc
      have hlt : n < s.sups.length := by
        rcases Nat.lt_or_ge n s.sups.length with h | h
        · exact h
        · rw [List.getElem?_eq_none h] at hn; cases hn
      rw [hI.len] at hlt
      rw [hw n hlt] at hn
      cases hn
      simp [pastWait]
    omega
  · intro k hm
    have hcnt := hI.sup k
    have hexp : expected s.sups[k]? = (0, 0, 0) := by
      rcases Nat.lt_or_ge k cfg.services.length with h | h
      · rw [hw k h]; rfl
      · rw [List.getElem?_eq_none (by rw [hI.len]; exact h)]; rfl
    rw [hexp] at hcnt
    have h0 : s.trace.count (Act.kill k) = 0 := congrArg (fun x => x.2.1) hcnt
    exact List.count_eq_zero.mp h0 hm

/-- C9 refuted on the scenario of the spec: A, B and C are configured and
only the start of B fails; A and C reach their wait on `release`; one
interrupt is handled; A receives the value, is killed and confirms, and the
process ends with C still waiting and its child never killed. -/
theorem start_failure_scenario_leaves_child_running :
    cfg3.startErr 0 = false ∧ cfg3.startErr 1 = true ∧ cfg3.startErr 2 = false ∧
    (∃ s, exec cfg3 [Label.sup 0, Label.sup 1, Label.sup 2] (init cfg3) = some s ∧
      s.sups[0]? = some SupPc.waiting ∧ s.sups[2]? = some SupPc.waiting) ∧
    ∃ s, exec cfg3 [Label.sup 0, Label.sup 1, Label.sup 2, Label.interrupt, Label.release 0,
        Label.sup 0, Label.exit 0, Label.coord, Label.coord] (init cfg3) = some s ∧
      s.sups[2]? = some SupPc.waiting ∧ s.exited = some 1 ∧ Act.kill 2 ∉ s.trace ∧
      ∀ l, step cfg3 l s = none := by
  refine ⟨rfl, rfl, rfl, ⟨_, rfl, rfl, rfl⟩, ⟨_, rfl, rfl, rfl, by decide, ?_⟩⟩
  intro l
  exact step_of_exited (c := 1) rfl l

/-- C9 as amended. When the start of service `a` fails, the supervisor of `a`
logs the error and the descriptor, the process goes on and no other
supervisor is touched. In every state, whatever has run before, any other
supervisor that stands before its start can take its start step, which calls
`process.Start` with the binary, directory and arguments of its own
service, logs it as running and leaves it waiting on `release`; and in every
reachable state every other supervisor past its start has made that call.
One waiting supervisor per handled trigger receives the value sent on
`release`: in every reachable state the supervisors past their wait are as
many as the values received, these plus the send in progress are as many as
the triggers handled, and the calls of `Kill` are at most as many. After
all supervisors have started, on an interrupt any other service whose
`Kill` succeeds can be the one that is released, killed and confirms its
exit; the process then ends with status 1 after that single trigger, with
every other supervisor where it was and no other child killed. -/
theorem start_failure_leaves_others (cfg : Config) (a : Nat) (ha : cfg.startErr a = true) :
    (∀ s s' svc, s.sups[a]? = some SupPc.start → cfg.services[a]? = some svc →
      step cfg (Label.sup a) s = some s' →
      s'.exited = none ∧ s'.coord = s.coord ∧ (∀ j, j ≠ a → s'.sups[j]? = s.sups[j]?) ∧
      Act.log (LogMsg.unableToStart svc.Name) ∈ s'.trace ∧
      Act.log (LogMsg.descriptor svc) ∈ s'.trace) ∧
    (∀ s j svc, j ≠ a → s.exited = none → s.sups[j]? = some SupPc.start →
      cfg.services[j]? = some svc →
      ∃ s', step cfg (Label.sup j) s = some s' ∧ s'.sups[j]? = some SupPc.waiting ∧
        s'.exited = none ∧ (∀ k, k ≠ j → s'.sups[k]? = s.sups[k]?) ∧
        Act.startCall j svc.Binary svc.Dir svc.Args ∈ s'.trace ∧
        Act.log (LogMsg.running svc.FullPath svc.Port) ∈ s'.trace) ∧
    (∀ s, Reachable cfg s →
      (∀ j svc pc, j ≠ a → cfg.services[j]? = some svc → s.sups[j]? = some pc →
        pc ≠ SupPc.start →
        Act.startCall j svc.Binary svc.Dir svc.Args ∈ s.trace ∧
        Act.log (LogMsg.running svc.FullPath svc.Port) ∈ s.trace) ∧
      s.sups.countP pastWait = nReleases s.trace ∧
      nReleases s.trace + pending s.coord = nTriggers s.trace ∧
      nKills s.trace ≤ nReleases s.trace) ∧
    ∃ s, exec cfg ((List.range cfg.services.length).map Label.sup) (init cfg) = some s ∧
      s.exited = none ∧ s.coord = CoordPc.select ∧
      ∀ j svc, j ≠ a → cfg.services[j]? = some svc →
        s.sups[j]? = some SupPc.waiting ∧
        (cfg.killRes j = KillResult.ok →
          ∃ s', exec cfg [Label.interrupt, Label.release j, Label.sup j, Label.exit j,
              Label.coord, Label.coord] s = some s' ∧
            Act.kill j ∈ s'.trace ∧ Act.exitConfirm j ∈ s'.trace ∧ s'.exited = some 1 ∧
            nTriggers s'.trace = 1 ∧
            (∀ k, k ≠ j → Act.kill k ∉ s'.trace ∧ s'.sups[k]? = s.sups[k]?) ∧
            ∀ l, step cfg l s' = none) := by
  refine ⟨?_, ?_, ?_, ?_⟩
  · intro s s' svc hs hsvc hstep
    have hex := step_exited_none hstep
    rw [step_start_eq cfg hex hs hsvc] at hstep
    cases hstep
    have hm := (mem_startActs cfg a svc).2.2 ha
    refine ⟨hex, rfl, ?_, List.mem_append_left _ hm.1, List.mem_append_left _ hm.2⟩
    intro j hj
    simp [getElem?_set_of_some _ hs, hj]
  · intro s j svc _ hex hs hsvc
    have hm := mem_startActs cfg j svc
    refine ⟨_, step_start_eq cfg hex hs hsvc, ?_, hex, ?_,
      List.mem_append_left _ hm.1, List.mem_append_left _ hm.2.1⟩
    · simp [getElem?_set_of_some _ hs]
    · intro k hk
      simp [getElem?_set_of_some _ hs, hk]
  · intro s hs
    obtain ⟨ls, hls⟩ := hs
    have hI := inv_exec ls (inv_init cfg) hls
    have hJ := invStarted_exec ls (invStarted_init cfg) hls
    exact ⟨fun j svc pc _ h1 h2 h3 => hJ.started j svc pc h1 h2 h3, hI.recvs,
      hI.sends.symm, kills_le_releases hI hJ⟩
  · obtain ⟨s, hrun, hex, hc, hw, -, -⟩ := start_prefix cfg cfg.services.length (Nat.le_refl _)
    have hI := inv_exec _ (inv_init cfg) hrun
    obtain ⟨hnt, hnk⟩ := fresh_of_all_waiting hI hc hw
    refine ⟨s, hrun, hex, hc, ?_⟩
    intro j svc _ hsvc
    have hj : j < cfg.services.length := by
      rcases Nat.lt_or_ge j cfg.services.length with h1 | h1
      · exact h1
      · rw [List.getElem?_eq_none h1] at hsvc; cases hsvc
    refine ⟨hw j hj, ?_⟩
    intro hk
    obtain ⟨s', h1, h2, h3, h4, h5, h6, h7, h8⟩ := shutdown_run cfg hex hc (hw j hj) hsvc hk
    refine ⟨s', h1, h2, h3, h4, ?_, ?_, h8⟩
    · rw [h5, hnt]
    · intro k hkj
      exact ⟨fun hm => hnk k (h6 k hkj hm), h7 k hkj⟩

/-- C9 as amended, on the scenario of the spec: A, B and C are configured and
the start of B fails. -/
theorem start_failure_leaves_others_witness :
    cfg3.startErr 1 = true ∧
    ∃ s, exec cfg3 ((List.range cfg3.services.length).map Label.sup) (init cfg3) = some s ∧
      s.exited = none ∧ s.coord = CoordPc.select ∧
      ∀ j svc, j ≠ 1 → cfg3.services[j]? = some svc →
        s.sups[j]? = some SupPc.waiting ∧
        (cfg3.killRes j = KillResult.ok →
          ∃ s', exec cfg3 [Label.interrupt, Label.release j, Label.sup j, Label.exit j,
              Label.coord, Label.coord] s = some s' ∧
            Act.kill j ∈ s'.trace ∧ Act.exitConfirm j ∈ s'.trace ∧ s'.exited = some 1 ∧
            nTriggers s'.trace = 1 ∧
            (∀ k, k ≠ j → Act.kill k ∉ s'.trace ∧ s'.sups[k]? = s.sups[k]?) ∧
            ∀ l, step cfg3 l s' = none) :=
  ⟨rfl, (start_failure_leaves_others cfg3 1 rfl).2.2.2⟩

/-! ## The service table: C10 -/

theorem digit_toNat : ∀ d : Nat, d < 10 → (Char.ofNat (48 + d)).toNat = 48 + d := by
  decide

theorem digit_eq_digitChar : ∀ d : Nat, d < 10 → Nat.digitChar d = Char.ofNat (48 + d) := by
  decide

theorem digit_ne_minus : ∀ d : Nat, d < 10 → Char.ofNat (48 + d) ≠ '-' := by
  decide

theorem foldr_digitsRev : ∀ (fuel n : Nat), n < fuel →
    (digitsRev fuel n).foldr (fun c acc => 10 * acc + (c.toNat - 48)) 0 = n
  | 0, n, h => by omega
  | fuel + 1, n, h => by
    unfold digitsRev
    by_cases hn : n < 10
    · simp [hn, digit_toNat n hn]
    · have hlt : n / 10 < fuel := by omega
      have hd := digit_toNat (n % 10) (Nat.mod_lt n (by decide))
      simp only [hn, if_false, List.foldr_cons, foldr_digitsRev fuel (n / 10) hlt, hd]
      omega

theorem parseNat_natDecimal (n : Nat) : parseNat (natDecimal n) = n := by
  unfold parseNat natDecimal
  rw [List.foldl_reverse]
  exact foldr_digitsRev (n + 1) n (Nat.lt_succ_self n)

theorem digitsRev_digits : ∀ (fuel n : Nat) (c : Char), c ∈ digitsRev fuel n →
    ∃ d, d < 10 ∧ c = Char.ofNat (48 + d)
  | 0, n, c, h => by simp [digitsRev] at h
  | fuel + 1, n, c, h => by
    unfold digitsRev at h
    by_cases hn : n < 10
    · simp only [hn, if_true, List.mem_singleton] at h
      exact ⟨n, hn, h⟩
    · simp only [hn, if_false, List.mem_cons] at h
      rcases h with h | h
      · exact ⟨n % 10, Nat.mod_lt n (by decide), h⟩
      · exact digitsRev_digits fuel (n / 10) c h

theorem parseInt_of_no_minus : ∀ cs : List Char, (∀ c ∈ cs, c ≠ '-') →
    parseInt cs = (parseNat cs : Int)
  | [], _ => rfl
  | c :: cs, h => by
    have hc : c ≠ '-' := h c (List.mem_cons_self c cs)
    unfold parseInt
    split
    · next cs' heq =>
      cases heq
      exact absurd rfl hc
    · rfl

theorem natDecimal_no_minus (n : Nat) : ∀ c ∈ natDecimal n, c ≠ '-' := by
  intro c hc
  unfold natDecimal at hc
  obtain ⟨d, hd, rfl⟩ := digitsRev_digits (n + 1) n c (List.mem_reverse.mp hc)
  exact digit_ne_minus d hd

theorem parseInt_sprintfD (p : Int) : parseInt (sprintfD p) = p := by
  unfold sprintfD
  by_cases hp : p < 0
  · simp only [hp, if_true, parseInt, parseNat_natDecimal]
    omega
  · simp only [hp, if_false]
    rw [parseInt_of_no_minus _ (natDecimal_no_minus _), parseNat_natDecimal]
    omega

theorem toDigitsCore_eq : ∀ (fuel n : Nat) (ds : List Char), n < fuel →
    Nat.toDigitsCore 10 fuel n ds = (digitsRev fuel n).reverse ++ ds
  | 0, n, ds, h => by omega
  | fuel + 1, n, ds, h => by
    unfold Nat.toDigitsCore digitsRev
    by_cases hn : n < 10
    · have h0 : n / 10 = 0 := by omega
      have hm : n % 10 = n := by omega
      simp [hn, h0, hm, digit_eq_digitChar n hn]
    · have h0 : ¬ n / 10 = 0 := by omega
      have hlt : n / 10 < fuel := by omega
      simp only [hn, h0, if_false, toDigitsCore_eq fuel (n / 10) _ hlt,
        digit_eq_digitChar (n % 10) (Nat.mod_lt n (by decide)), List.reverse_cons,
        List.append_assoc, List.singleton_append]

theorem natDecimal_eq_repr (n : Nat) : String.mk (natDecimal n) = toString n := by
  show String.mk (natDecimal n) = Nat.repr n
  unfold natDecimal Nat.repr Nat.toDigits
  rw [toDigitsCore_eq (n + 1) n [] (Nat.lt_succ_self n)]
  simp [List.asString]

theorem sprintfD_eq_toString (p : Int) : String.mk (sprintfD p) = toString p := by
  unfold sprintfD
  cases p with
  | ofNat m =>
    have : ¬ (Int.ofNat m < 0) := by simp
    simp only [this, if_false, Int.natAbs_ofNat]
    exact natDecimal_eq_repr m
  | negSucc m =>
    have : Int.negSucc m < 0 := Int.negSucc_lt_zero m
    simp only [this, if_true, Int.natAbs_negSucc]
    show String.mk ('-' :: natDecimal (m + 1)) = "-" ++ Nat.repr (m + 1)
    have h := natDecimal_eq_repr (m + 1)
    have h' : Nat.repr (m + 1) = String.mk (natDecimal (m + 1)) := h.symm
    rw [h']
    rfl

/-- C10: for every value `p` of the nyaa port, the service table built at
startup from `p` is the one `"nyaa"` descriptor, whose `Port` is `p`, whose
`Endpoint` is `"http://localhost:"` followed by the decimal rendering of
`p`, and whose `Args` is the single string `"--port="` followed by the
same rendering; the rendering reads back as `p`; the port is the value of
the `--nyaa-port` flag when it is given and 9995 when it is not. -/
theorem nyaa_descriptor_from_port (p : Int) :
    services p = [nyaaService p] ∧
    (services p).map (fun d => d.Port) = [p] ∧
    (services p).map (fun d => d.Endpoint) = ["http://localhost:" ++ toString p] ∧
    (services p).map (fun d => d.Args) = [["--port=" ++ toString p]] ∧
    services (nyaaPortFlag (some p)) = services p ∧
    (nyaaService p).Port = p ∧
    (nyaaService p).Endpoint = "http://localhost:" ++ toString p ∧
    (nyaaService p).Args = ["--port=" ++ toString p] ∧
    parseInt (sprintfD p) = p ∧
    nyaaPortFlag none = 9995 ∧ nyaaPortFlag (some p) = p ∧
    services (nyaaPortFlag none) = [nyaaService 9995] := by
  have h := sprintfD_eq_toString p
  have he : (nyaaService p).Endpoint = "http://localhost:" ++ toString p := by
    show String.mk ("http://localhost:".data ++ sprintfD p) = _
    rw [← h]
    rfl
  have ha : (nyaaService p).Args = ["--port=" ++ toString p] := by
    show [String.mk ("--port=".data ++ sprintfD p)] = _
    rw [← h]
    rfl
  refine ⟨rfl, rfl, ?_, ?_, rfl, rfl, he, ha, parseInt_sprintfD p, rfl, rfl, rfl⟩
  · show [(nyaaService p).Endpoint] = _
    rw [he]
  · show [(nyaaService p).Args] = _
    rw [ha]

end UltimateHeart
